import Mathlib

/-!
Verification of the bulk message-cleaning engine (the Clean cog,
bot/exts/moderation/clean.py) against its natural-language specification.

The Python source is shallowly embedded: messages, embeds and requests become
structures; the mutable cleaning flag becomes explicit state passing with a
monotone clock; every external call (history fetch, delete, bulk delete,
mod-log sink) is recorded in an event trace and its outcome is drawn from an
environment value.  Cancellation (the stop command clearing the flag from a
concurrently scheduled coroutine) is modelled by a schedule telling at which
flag reads a cancel has taken effect.
-/

namespace CleanSpec

/-- One name/value field of a rich embed. -/
structure EmbedField where
  name : String
  value : String
deriving DecidableEq

/-- The text-bearing parts of a message embed.  Python attributes that can be
None are modelled as the empty string: the only consumer filters out both
None and empty strings with the same truthiness test. -/
structure MEmbed where
  title : String
  description : String
  footerText : String
  authorName : String
  fields : List EmbedField
deriving DecidableEq

/-- A chat message as seen by the cleaning engine: the snowflake id, the
channel it lives in, author data, text content, embeds, and the creation
timestamp used by the temporal filters (milliseconds). -/
structure Message where
  id : Nat
  channel : Nat
  authorId : Nat
  authorBot : Bool
  content : String
  embeds : List MEmbed
  createdAt : Int
deriving DecidableEq

/-- A boundary limit of a cleaning request: either an anchoring message or a
point in time (an Age or ISODateTime argument, already resolved). -/
inductive CleanLimit where
  | message (m : Message)
  | timestamp (t : Int)
deriving DecidableEq

/-- The channel scope: the wildcard (the literal star) or an explicit list. -/
inductive CleanChannels where
  | wildcard
  | chanList (cs : List Nat)
deriving DecidableEq

/-- Python truthiness of the optional channels argument: None and the empty
list are falsy, the wildcard string and a non-empty list are truthy. -/
def channelsTruthy : Option CleanChannels → Bool
  | none => false
  | some CleanChannels.wildcard => true
  | some (CleanChannels.chanList cs) => !cs.isEmpty

/-- The errors the engine can raise.  Validation errors keep their identity
(the source raises BadArgument or ValueError with distinct texts);
maxConcurrencyReached is the single-flight rejection; networkError stands for
any non-NotFound failure of a platform call. -/
inductive CleanError where
  | traverseTooBig
  | messageLimitWithChannels
  | limitsInDifferentChannels
  | botsOnlyWithUsers
  | secondLimitWithoutFirst
  | maxConcurrencyReached
  | networkError
deriving DecidableEq

/-- Modelled from the spec: the configured hard ceiling on the number of
messages to traverse (CleanMessages.message_limit lives in the deployed
configuration, not under src/; the spec only says a configured ceiling
exists, so the concrete value is arbitrary here). -/
def message_limit : Nat := 10000

/-- Whether an optional limit argument is an anchoring message. -/
def isMessageLimit : Option CleanLimit → Bool
  | some (CleanLimit.message _) => true
  | _ => false

/-- The channel of a message limit, if the limit is a message. -/
def limitChannel : Option CleanLimit → Option Nat
  | some (CleanLimit.message m) => some m.channel
  | _ => none

/-- Embedding of Clean._validate_input.  The checks run in source order and
the first failing one decides the error.  The second check keeps the
source's duplicated disjunct exactly as written: the source tests
isinstance(first_limit, Message) twice and never tests second_limit there. -/
def validateInput (traverse : Nat) (channels : Option CleanChannels)
    (botsOnly : Bool) (users : List Nat)
    (firstLimit secondLimit : Option CleanLimit) : Option CleanError :=
  if traverse > message_limit then
    some CleanError.traverseTooBig
  else if (isMessageLimit firstLimit || isMessageLimit firstLimit)
      && channelsTruthy channels then
    some CleanError.messageLimitWithChannels
  else if isMessageLimit firstLimit && isMessageLimit secondLimit
      && limitChannel firstLimit != limitChannel secondLimit then
    some CleanError.limitsInDifferentChannels
  else if !users.isEmpty && botsOnly then
    some CleanError.botsOnlyWithUsers
  else if secondLimit.isSome && firstLimit.isNone then
    some CleanError.secondLimitWithoutFirst
  else
    none

/-- Embedding of predicate_bots_only. -/
def predicate_bots_only (m : Message) : Bool := m.authorBot

/-- Embedding of predicate_specific_users: author membership in the given
user list (users are identified by id). -/
def predicate_specific_users (users : List Nat) (m : Message) : Bool :=
  users.contains m.authorId

/-- The text attributes of one embed, in the order the source appends them:
title, description, footer text, author name, then each field's name and
value. -/
def embedTexts (e : MEmbed) : List String :=
  e.title :: e.description :: e.footerText :: e.authorName ::
    (e.fields.map (fun f => [f.name, f.value])).flatten

/-- All text attributes collected by predicate_regex: the message content
followed by every embed's texts. -/
def messageTexts (m : Message) : List String :=
  m.content :: (m.embeds.map embedTexts).flatten

/-- Python's separator.join on a list of strings, for the newline separator. -/
def joinNL : List String → String
  | [] => ""
  | [s] => s
  | s :: rest => s ++ "\n" ++ joinNL rest

/-- Python str.lower, character by character. -/
def pyLower (s : String) : String := ⟨s.data.map Char.toLower⟩

/-- The string predicate_regex actually searches: the non-empty text
attributes joined with newlines. -/
def joinedText (m : Message) : String :=
  joinNL ((messageTexts m).filter (fun s => s != ""))

/-- Embedding of predicate_regex.  Python's re.search is an external engine;
it enters the model as the parameter search, applied exactly as the source
applies re.search: to the lowercased pattern and the lowercased joined
content, with an empty joined content short-circuiting to False. -/
def predicate_regex (search : String → String → Bool) (regex : String)
    (m : Message) : Bool :=
  let content := joinedText m
  if content = "" then false
  else search (pyLower regex) (pyLower content)

/-- Embedding of predicate_range.  In the source the two limits are closure
variables that are only both set when this predicate is installed; the
catch-all branch models the unreachable case (Python would raise comparing
None). -/
def predicate_range (firstLimit secondLimit : Option Int) (m : Message) :
    Bool :=
  match firstLimit, secondLimit with
  | some f, some s => decide (f ≤ m.createdAt ∧ m.createdAt ≤ s)
  | _, _ => false

/-- Embedding of predicate_after; the none branch is unreachable for the same
reason as in predicate_range. -/
def predicate_after (firstLimit : Option Int) (m : Message) : Bool :=
  match firstLimit with
  | some f => decide (m.createdAt ≥ f)
  | none => false

/-- Embedding of Clean._build_predicate.  The list of installed predicates
follows the source: the bot filter, the user filter and the regex filter when
their arguments are truthy, then at most one temporal filter (the range
filter when a second limit exists, else the after filter when a first limit
exists).  An empty regex string plays the role of the falsy pattern. -/
def buildPredicate (search : String → String → Bool) (botsOnly : Bool)
    (users : List Nat) (regex : String)
    (firstLimit secondLimit : Option Int) : Message → Bool :=
  let predicates : List (Message → Bool) :=
    (if botsOnly then [predicate_bots_only] else []) ++
    (if !users.isEmpty then [predicate_specific_users users] else []) ++
    (if regex ≠ "" then [predicate_regex search regex] else []) ++
    (if secondLimit.isSome then [predicate_range firstLimit secondLimit]
     else if firstLimit.isSome then [predicate_after firstLimit] else [])
  match predicates with
  | [] => fun _ => true
  | [p] => p
  | ps => fun m => ps.all (fun pred => pred m)

/-- Embedding of the threshold snowflake in Clean.is_older_than_14d.  The
source computes int((time.time() - 14*24*60*60) * 1000.0 - 1420070400000)
shifted left by 22; nowMs is the millisecond reading of time.time()*1000,
and a left shift of a Python int by 22 is multiplication by 2 ^ 22. -/
def two_weeks_old_snowflake (nowMs : Int) : Int :=
  (nowMs - 14 * 24 * 60 * 60 * 1000 - 1420070400000) * 2 ^ 22

/-- Embedding of Clean.is_older_than_14d: the message id is compared against
the threshold snowflake. -/
def is_older_than_14d (nowMs : Int) (m : Message) : Bool :=
  decide ((m.id : Int) < two_weeks_old_snowflake nowMs)

/-- The creation timestamp (milliseconds) embedded in a snowflake id:
the top bits shifted down by 22, plus the platform epoch. -/
def snowflakeTimestamp (id : Nat) : Int :=
  ((id >>> 22 : Nat) : Int) + 1420070400000

/-- The cleaning flag together with a logical clock counting flag reads.
The clock orders the reads so that a cancellation schedule can say when the
stop command's write of False becomes visible. -/
structure CState where
  time : Nat
  cleaning : Bool
deriving DecidableEq

/-- One read of self.cleaning.  A cancel that has fired at or before this
read makes the flag False, and False is sticky: the in-run code never writes
True back except at the very start of a run. -/
def readFlag (cancelAt : Nat → Bool) (s : CState) : Bool × CState :=
  let c := s.cleaning && !(cancelAt s.time)
  (c, ⟨s.time + 1, c⟩)

/-- The outcome of one delete call on the platform: success, a NotFound
response (the message no longer exists), or any other failure. -/
inductive DeleteOutcome where
  | ok
  | notFound
  | err
deriving DecidableEq

/-- The observable side effects of a run, in order of occurrence. -/
inductive Event where
  | modlogIgnore (ids : List Nat)
  | invocationDelete
  | historyCall (channel : Nat)
  | bulkDeleteCall (channel : Nat) (msgs : List Message)
  | deleteCall (msg : Message)
  | uploadLog (msgs : List Message) (actor : Nat)
  | sendLogMessage (deletedCount : Nat)
  | noMatchesNotice
  | confirmationReaction
deriving DecidableEq

/-- The external world of one run: the cancellation schedule, the client's
message cache, the history endpoint (an error element aborts the stream at
that point), and the outcomes of delete and bulk-delete calls. -/
structure Env where
  cancelAt : Nat → Bool
  cachedMessages : List Message
  history : Nat → Option Int → Option Int → List (Except Unit Message)
  deleteOutcome : Message → DeleteOutcome
  bulkOutcome : Nat → List Message → Bool
  invocationDeleteOutcome : DeleteOutcome

/-- No cancel ever fires in this environment. -/
def noCancel (env : Env) : Prop := ∀ t, env.cancelAt t = false

/-- The invoking context.  Whether the invoking channel is a mod channel is
external data (bot.utils.channel.is_mod_channel is configuration, not under
src/), so it is carried as a field. -/
structure Ctx where
  channel : Nat
  messageId : Nat
  authorId : Nat
  isModChannel : Bool
  guildTextChannels : List Nat

/-- The per-channel mapping of matched messages: association list keyed by
channel id, keys in first-insertion order, values in append order — the
behaviour of Python's insertion-ordered defaultdict(list). -/
abbrev MessageMapping := List (Nat × List Message)

/-- Append a message under its channel key, inserting the key at the end on
first use. -/
def addToMapping (c : Nat) (m : Message) : MessageMapping → MessageMapping
  | [] => [(c, [m])]
  | (c', ms) :: rest =>
    if c' = c then (c', ms ++ [m]) :: rest
    else (c', ms) :: addToMapping c m rest

/-- Loop of Clean._get_messages_from_cache: before each cache entry the flag
is read, and a cleared flag returns what was collected so far. -/
def getMessagesFromCacheAux (env : Env) (toDelete : Message → Bool) :
    List Message → MessageMapping → List Nat → CState →
    MessageMapping × List Nat × CState
  | [], mapping, ids, s => (mapping, ids, s)
  | m :: rest, mapping, ids, s =>
    let (c, s') := readFlag env.cancelAt s
    if !c then (mapping, ids, s')
    else if toDelete m then
      getMessagesFromCacheAux env toDelete rest
        (addToMapping m.channel m mapping) (ids ++ [m.id]) s'
    else
      getMessagesFromCacheAux env toDelete rest mapping ids s'

/-- Embedding of Clean._get_messages_from_cache: islice(cached, traverse)
is the first traverse cache entries. -/
def getMessagesFromCache (env : Env) (traverse : Nat)
    (toDelete : Message → Bool) (s : CState) :
    MessageMapping × List Nat × CState :=
  getMessagesFromCacheAux env toDelete (env.cachedMessages.take traverse)
    [] [] s

/-- Inner loop of Clean._get_messages_from_channels over one channel's
history stream.  An error element propagates; a cleared flag makes the whole
gatherer return empty containers, signalled here by none. -/
def historyScanChan (env : Env) (toDelete : Message → Bool) :
    List (Except Unit Message) → MessageMapping → List Nat → CState →
    Except CleanError (Option (MessageMapping × List Nat)) × CState
  | [], mapping, ids, s => (Except.ok (some (mapping, ids)), s)
  | Except.error _ :: _, _, _, s => (Except.error CleanError.networkError, s)
  | Except.ok m :: rest, mapping, ids, s =>
    let (c, s') := readFlag env.cancelAt s
    if !c then (Except.ok none, s')
    else if toDelete m then
      historyScanChan env toDelete rest
        (addToMapping m.channel m mapping) (ids ++ [m.id]) s'
    else
      historyScanChan env toDelete rest mapping ids s'

/-- Outer loop of Clean._get_messages_from_channels: one history request per
channel in scope order, bounded by traverse and the two optional timestamps;
on cancellation the source returns fresh empty containers, discarding every
partial result. -/
def getMessagesFromChannelsAux (env : Env) (traverse : Nat)
    (toDelete : Message → Bool) (before after : Option Int) :
    List Nat → MessageMapping → List Nat → CState → List Event →
    Except CleanError (MessageMapping × List Nat) × CState × List Event
  | [], mapping, ids, s, tr => (Except.ok (mapping, ids), s, tr)
  | ch :: rest, mapping, ids, s, tr =>
    let items := (env.history ch before after).take traverse
    let tr' := tr ++ [Event.historyCall ch]
    match historyScanChan env toDelete items mapping ids s with
    | (Except.error e, s') => (Except.error e, s', tr')
    | (Except.ok none, s') => (Except.ok ([], []), s', tr')
    | (Except.ok (some (mapping', ids')), s') =>
      getMessagesFromChannelsAux env traverse toDelete before after
        rest mapping' ids' s' tr'

/-- Embedding of Clean._get_messages_from_channels. -/
def getMessagesFromChannels (env : Env) (traverse : Nat)
    (channels : List Nat) (toDelete : Message → Bool)
    (before after : Option Int) (s : CState) (tr : List Event) :
    Except CleanError (MessageMapping × List Nat) × CState × List Event :=
  getMessagesFromChannelsAux env traverse toDelete before after
    channels [] [] s tr

/-- Embedding of Clean._delete_messages_individually: one delete call per
message, a flag read before each, NotFound swallowed (the message is only
excluded from the returned list), any other failure propagated. -/
def deleteMessagesIndividually (env : Env) :
    List Message → List Message → CState → List Event →
    Except CleanError (List Message) × CState × List Event
  | [], deleted, s, tr => (Except.ok deleted, s, tr)
  | m :: rest, deleted, s, tr =>
    let (c, s') := readFlag env.cancelAt s
    if !c then (Except.ok deleted, s', tr)
    else
      let tr' := tr ++ [Event.deleteCall m]
      match env.deleteOutcome m with
      | DeleteOutcome.ok =>
        deleteMessagesIndividually env rest (deleted ++ [m]) s' tr'
      | DeleteOutcome.notFound =>
        deleteMessagesIndividually env rest deleted s' tr'
      | DeleteOutcome.err => (Except.error CleanError.networkError, s', tr')

/-- How processing one channel inside _delete_found ends: cancelled makes the
whole executor return immediately with what was deleted so far; completed
moves on to the next channel. -/
inductive ChanOutcome where
  | cancelled (deleted : List Message)
  | completed (deleted : List Message)
deriving DecidableEq

/-- The flush of a pending bulk batch after the per-channel loop (and after
the break of the aged-out branch): one bulk-delete call when the batch is
non-empty. -/
def flushBatch (env : Env) (channel : Nat) (toDel deleted : List Message)
    (s : CState) (tr : List Event) :
    Except CleanError ChanOutcome × CState × List Event :=
  if toDel.length > 0 then
    let tr' := tr ++ [Event.bulkDeleteCall channel toDel]
    if env.bulkOutcome channel toDel then
      (Except.ok (ChanOutcome.completed (deleted ++ toDel)), s, tr')
    else (Except.error CleanError.networkError, s, tr')
  else (Except.ok (ChanOutcome.completed deleted), s, tr)

/-- Per-channel loop of Clean._delete_found.  Before each message the flag is
read; an aged-out message sends the whole remainder of the list to the
individual deleter, re-reads the flag, and breaks to the batch flush; young
messages accumulate into the batch, which is bulk-deleted whenever it
reaches 100. -/
def deleteFoundChanAux (env : Env) (nowMs : Int) (channel : Nat) :
    List Message → List Message → List Message → CState → List Event →
    Except CleanError ChanOutcome × CState × List Event
  | [], toDel, deleted, s, tr => flushBatch env channel toDel deleted s tr
  | m :: rest, toDel, deleted, s, tr =>
    let (c, s') := readFlag env.cancelAt s
    if !c then (Except.ok (ChanOutcome.cancelled deleted), s', tr)
    else if is_older_than_14d nowMs m then
      match deleteMessagesIndividually env (m :: rest) [] s' tr with
      | (Except.error e, s2, tr') => (Except.error e, s2, tr')
      | (Except.ok deletedRemaining, s2, tr') =>
        let deleted' := deleted ++ deletedRemaining
        let (c2, s3) := readFlag env.cancelAt s2
        if !c2 then (Except.ok (ChanOutcome.cancelled deleted'), s3, tr')
        else flushBatch env channel toDel deleted' s3 tr'
    else
      let toDel' := toDel ++ [m]
      if toDel'.length = 100 then
        let tr' := tr ++ [Event.bulkDeleteCall channel toDel']
        if env.bulkOutcome channel toDel' then
          deleteFoundChanAux env nowMs channel rest [] (deleted ++ toDel')
            s' tr'
        else (Except.error CleanError.networkError, s', tr')
      else
        deleteFoundChanAux env nowMs channel rest toDel' deleted s' tr

/-- Channel loop of Clean._delete_found. -/
def deleteFoundAux (env : Env) (nowMs : Int) :
    MessageMapping → List Message → CState → List Event →
    Except CleanError (List Message) × CState × List Event
  | [], deleted, s, tr => (Except.ok deleted, s, tr)
  | (ch, msgs) :: rest, deleted, s, tr =>
    match deleteFoundChanAux env nowMs ch msgs [] deleted s tr with
    | (Except.error e, s', tr') => (Except.error e, s', tr')
    | (Except.ok (ChanOutcome.cancelled d), s', tr') => (Except.ok d, s', tr')
    | (Except.ok (ChanOutcome.completed d), s', tr') =>
      deleteFoundAux env nowMs rest d s' tr'

/-- Embedding of Clean._delete_found. -/
def deleteFound (env : Env) (nowMs : Int) (mappings : MessageMapping)
    (s : CState) (tr : List Event) :
    Except CleanError (List Message) × CState × List Event :=
  deleteFoundAux env nowMs mappings [] s tr

/-- The arguments of one cleaning invocation, as passed to
Clean._clean_messages.  An absent users argument is the empty list and a
falsy regex the empty string, matching the truthiness tests the source
applies to them. -/
structure CleanRequest where
  traverse : Nat
  channels : Option CleanChannels
  botsOnly : Bool
  users : List Nat
  regex : String
  firstLimit : Option CleanLimit
  secondLimit : Option CleanLimit
  useCache : Bool

/-- How a run that raised no error came back: the bare return taken when the
flag was found cleared right after gathering, or completion with the list of
deleted messages. -/
inductive CleanResult where
  | earlyReturn
  | completed (deleted : List Message)
deriving DecidableEq

/-- A boundary limit as a timestamp: a message limit contributes its creation
time. -/
def limitToTimestamp : Option CleanLimit → Option Int
  | some (CleanLimit.message m) => some m.createdAt
  | some (CleanLimit.timestamp t) => some t
  | none => none

/-- Scope defaulting in Clean._clean_messages: a falsy channels argument is
replaced by the channel of the first message limit, else of the second, else
the invoking channel. -/
def defaultChannels (ctx : Ctx) (req : CleanRequest) : CleanChannels :=
  match req.channels, channelsTruthy req.channels with
  | some c, true => c
  | _, _ =>
    match req.firstLimit, req.secondLimit with
    | some (CleanLimit.message m), _ => CleanChannels.chanList [m.channel]
    | _, some (CleanLimit.message m) => CleanChannels.chanList [m.channel]
    | _, _ => CleanChannels.chanList [ctx.channel]

/-- Boundary normalization: when both limits are present they are swapped
into non-decreasing order. -/
def sortedLimits (f0 s0 : Option Int) : Option Int × Option Int :=
  match f0, s0 with
  | some a, some b => if a ≤ b then (some a, some b) else (some b, some a)
  | _, _ => (f0, s0)

/-- The body of Clean._clean_messages after the flag has been set: scope
defaulting, limit normalization, predicate construction, invocation-message
deletion outside mod channels, gathering, the post-gather flag check,
suppression of the engine's own deletion events, deletion, resetting the
flag, and result logging. -/
def cleanRun (env : Env) (search : String → String → Bool) (nowMs : Int)
    (ctx : Ctx) (req : CleanRequest) (s : CState) :
    Except CleanError CleanResult × CState × List Event :=
  let channels1 := defaultChannels ctx req
  let limits := sortedLimits (limitToTimestamp req.firstLimit)
    (limitToTimestamp req.secondLimit)
  let pred := buildPredicate search req.botsOnly req.users req.regex
    limits.1 limits.2
  let tr0 : List Event :=
    if ctx.isModChannel then []
    else [Event.modlogIgnore [ctx.messageId], Event.invocationDelete]
  if !ctx.isModChannel && env.invocationDeleteOutcome == DeleteOutcome.err
  then
    (Except.error CleanError.networkError, s, tr0)
  else
    let gather :
        Except CleanError (MessageMapping × List Nat) × CState × List Event :=
      if channels1 = CleanChannels.wildcard && req.useCache then
        let r := getMessagesFromCache env req.traverse pred s
        (Except.ok (r.1, r.2.1), r.2.2, tr0)
      else
        let deletionChannels :=
          match channels1 with
          | CleanChannels.wildcard => ctx.guildTextChannels
          | CleanChannels.chanList cs => cs
        getMessagesFromChannels env req.traverse deletionChannels pred
          limits.2 limits.1 s tr0
    match gather with
    | (Except.error e, s1, tr1) => (Except.error e, s1, tr1)
    | (Except.ok (mp, ids), s1, tr1) =>
      let (c, s2) := readFlag env.cancelAt s1
      if !c then (Except.ok CleanResult.earlyReturn, s2, tr1)
      else
        let tr2 := tr1 ++ [Event.modlogIgnore ids]
        match deleteFound env nowMs mp s2 tr2 with
        | (Except.error e, s3, tr3) => (Except.error e, s3, tr3)
        | (Except.ok deleted, s3, tr3) =>
          let s4 : CState := ⟨s3.time, false⟩
          let tr4 :=
            if deleted.isEmpty then tr3 ++ [Event.noMatchesNotice]
            else tr3 ++ [Event.uploadLog deleted.reverse ctx.authorId,
              Event.sendLogMessage deleted.length]
          let tr5 :=
            if !deleted.isEmpty && ctx.isModChannel then
              tr4 ++ [Event.confirmationReaction]
            else tr4
          (Except.ok (CleanResult.completed deleted), s4, tr5)

/-- Embedding of Clean._clean_messages: validation first, then the
single-flight check on the cleaning flag, then the run proper with the flag
set. -/
def cleanMessages (env : Env) (search : String → String → Bool) (nowMs : Int)
    (ctx : Ctx) (req : CleanRequest) (s : CState) :
    Except CleanError CleanResult × CState × List Event :=
  match validateInput req.traverse req.channels req.botsOnly req.users
    req.firstLimit req.secondLimit with
  | some e => (Except.error e, s, [])
  | none =>
    let (c, s1) := readFlag env.cancelAt s
    if c then (Except.error CleanError.maxConcurrencyReached, s1, [])
    else cleanRun env search nowMs ctx req ⟨s1.time, true⟩

/-! Spec-side notions used to state the claims. -/

/-- The messages handed to the platform's deletion endpoints, concatenated in
call order: each bulk-delete call contributes its batch, each delete call its
single message. -/
def callMessages : List Event → List Message
  | [] => []
  | Event.bulkDeleteCall _ ms :: rest => ms ++ callMessages rest
  | Event.deleteCall m :: rest => m :: callMessages rest
  | _ :: rest => callMessages rest

/-- Whether an event is a bulk-delete call on the given channel. -/
def isBulkCall (ch : Nat) : Event → Bool
  | Event.bulkDeleteCall c _ => c == ch
  | _ => false

/-- Pure gathering: fold the predicate over a list of messages, building the
channel mapping and id list exactly as the gatherers do, with no flag reads. -/
def gatherPureAux (pred : Message → Bool) :
    List Message → MessageMapping → List Nat → MessageMapping × List Nat
  | [], mp, ids => (mp, ids)
  | m :: rest, mp, ids =>
    if pred m then
      gatherPureAux pred rest (addToMapping m.channel m mp) (ids ++ [m.id])
    else gatherPureAux pred rest mp ids

/-- Pure gathering from empty accumulators. -/
def gatherPure (pred : Message → Bool) (msgs : List Message) :
    MessageMapping × List Nat :=
  gatherPureAux pred msgs [] []

/-- The batching discipline of the per-channel deletion loop on a run of
young messages, described purely: given the pending batch and the young
messages still to process, returns the bulk-delete events issued (one per
full batch of 100), the messages those events delete, and the batch still
pending afterwards. -/
def bulkTraceFrom (ch : Nat) :
    List Message → List Message → List Event × List Message × List Message
  | toDel, [] => ([], [], toDel)
  | toDel, m :: rest =>
    let toDel' := toDel ++ [m]
    if toDel'.length = 100 then
      let r := bulkTraceFrom ch [] rest
      (Event.bulkDeleteCall ch toDel' :: r.1, toDel' ++ r.2.1, r.2.2)
    else bulkTraceFrom ch toDel' rest

/-- The bulk-delete events issued while walking a run of young messages from
an empty batch. -/
def bulkEvents (ch : Nat) (young : List Message) : List Event :=
  (bulkTraceFrom ch [] young).1

/-- Case-blind equality of two strings: equal after lowercasing. -/
def fieldsEqUpToCase (a b : String) : Bool := pyLower a == pyLower b

/-- Case-blind equality of embed fields. -/
def embedFieldSameUpToCase (a b : EmbedField) : Bool :=
  fieldsEqUpToCase a.name b.name && fieldsEqUpToCase a.value b.value

/-- Case-blind equality of embeds: every text attribute agrees up to letter
case and the field lists have equal length and agree pointwise. -/
def embedSameUpToCase (a b : MEmbed) : Bool :=
  fieldsEqUpToCase a.title b.title &&
  fieldsEqUpToCase a.description b.description &&
  fieldsEqUpToCase a.footerText b.footerText &&
  fieldsEqUpToCase a.authorName b.authorName &&
  a.fields.length == b.fields.length &&
  (List.zip a.fields b.fields).all
    (fun p => embedFieldSameUpToCase p.1 p.2)

/-- Two messages whose texts differ only in letter case. -/
def sameUpToCase (a b : Message) : Bool :=
  fieldsEqUpToCase a.content b.content &&
  a.embeds.length == b.embeds.length &&
  (List.zip a.embeds b.embeds).all (fun p => embedSameUpToCase p.1 p.2)

/-- A message whose content and embed texts are all empty. -/
def allEmptyText (m : Message) : Bool :=
  (messageTexts m).all (fun s => s == "")

/-- The spec's description of the regex filter verdict: the case-insensitive
search of the pattern over the newline-joined non-empty text attributes,
never matching when there is no text. -/
def regexVerdictSpec (search : String → String → Bool) (pattern : String)
    (m : Message) : Bool :=
  let texts := (messageTexts m).filter (fun s => s != "")
  if texts.isEmpty then false
  else search (pyLower pattern) (pyLower (joinNL texts))

/-! Concrete inputs for counterexamples and witnesses. -/

/-- A concrete reading of time.time()*1000. -/
def cexNow : Int := 1720000000000

/-- A message well inside the bulk-delete window at cexNow. -/
def cexYoung : Message := ⟨300000000000 * 2 ^ 22, 1, 10, false, "y", [], 500⟩

/-- A message far outside the bulk-delete window. -/
def cexOld : Message := ⟨0, 1, 10, false, "o", [], 400⟩

/-- A benign environment: no cancels, empty cache and history, every delete
and bulk delete succeeds. -/
def cexEnvOk : Env :=
  ⟨fun _ => false, [], fun _ _ _ => [], fun _ => DeleteOutcome.ok,
    fun _ _ => true, DeleteOutcome.ok⟩

/-- A message created exactly 14 days before cexNow (snowflake timestamp
cexNow minus 14 days, low 22 bits zero):
298720000000 = 1720000000000 - 14*24*60*60*1000 - 1420070400000. -/
def cexMsg14 : Message := ⟨298720000000 * 2 ^ 22, 1, 1, false, "", [], 0⟩

/-- An invoking context in a mod channel whose own channel is 7. -/
def cexCtx : Ctx := ⟨7, 999, 42, true, [7]⟩

/-- A message in channel 7 used as a second boundary limit. -/
def c3Msg : Message := ⟨77, 7, 11, false, "b", [], 900⟩

/-- An environment whose channel 7 history yields c3Msg. -/
def c3Env : Env :=
  ⟨fun _ => false, [],
    fun c _ _ => if c = 7 then [Except.ok c3Msg] else [],
    fun _ => DeleteOutcome.ok, fun _ _ => true, DeleteOutcome.ok⟩

/-- The request of the C3 failing input: a timestamp first limit, a message
second limit, and an explicit channel scope. -/
def c3Req : CleanRequest :=
  ⟨5, some (CleanChannels.chanList [7]), false, [], "",
    some (CleanLimit.timestamp 100), some (CleanLimit.message c3Msg), false⟩

/-- An environment identical to c3Env except that every bulk delete fails. -/
def c1Env : Env :=
  ⟨fun _ => false, [],
    fun c _ _ => if c = 7 then [Except.ok cexYoung] else [],
    fun _ => DeleteOutcome.ok, fun _ _ => false, DeleteOutcome.ok⟩

/-- A filterless request over the explicit channel scope of channel 7. -/
def c1Req : CleanRequest :=
  ⟨5, some (CleanChannels.chanList [7]), false, [], "", none, none, false⟩

/-- A request whose traverse exceeds the configured ceiling. -/
def c4Req : CleanRequest :=
  ⟨message_limit + 1, none, false, [], "", none, none, true⟩

/-- Three cached messages in two channels for the cache-path witness. -/
def w9Env : Env :=
  ⟨fun t => t == 2,
    [⟨101, 1, 1, false, "a", [], 1⟩, ⟨102, 2, 1, false, "b", [], 2⟩,
      ⟨103, 1, 1, false, "c", [], 3⟩],
    fun _ _ _ => [], fun _ => DeleteOutcome.ok, fun _ _ => true,
    DeleteOutcome.ok⟩

/-- Two one-message channels with a cancel firing before the second history
item, for the history-path witness. -/
def w9EnvH : Env :=
  ⟨fun t => t == 1, [],
    fun c _ _ =>
      if c = 1 then [Except.ok ⟨201, 1, 1, false, "a", [], 1⟩]
      else [Except.ok ⟨202, 2, 1, false, "b", [], 2⟩],
    fun _ => DeleteOutcome.ok, fun _ _ => true, DeleteOutcome.ok⟩

/-! Claim C5: bulk-delete age eligibility. -/

/-- Claim C5 counterexample: cexMsg14's embedded creation timestamp is
exactly 14 days before now, so the claim says it is not eligible for bulk
deletion, yet is_older_than_14d is false (the comparison is strict), so the
code still treats it as bulk-eligible. -/
theorem C5_counterexample :
    snowflakeTimestamp cexMsg14.id = cexNow - 14 * 24 * 60 * 60 * 1000 ∧
    is_older_than_14d cexNow cexMsg14 = false := by
  constructor
  · decide
  · decide

/-- Claim C5 (amended): eligibility is computed from the id alone (messages
with equal ids are classified alike regardless of their stored creation
time), and for a message whose id embeds creation timestamp ts (top bits
ts minus the epoch, any low 22 bits), it is bulk-eligible exactly when ts is
at most 14 days before now — so a message exactly 14 days old is still
eligible, and only messages strictly older than 14 days are not. -/
theorem C5_amended :
    (∀ (nowMs : Int) (m m' : Message), m.id = m'.id →
      is_older_than_14d nowMs m = is_older_than_14d nowMs m') ∧
    (∀ (nowMs ts : Int) (low : Nat) (m : Message),
      1420070400000 ≤ ts → low < 2 ^ 22 →
      (m.id : Int) = (ts - 1420070400000) * 2 ^ 22 + (low : Int) →
      (is_older_than_14d nowMs m = false ↔
        nowMs - 14 * 24 * 60 * 60 * 1000 ≤ ts)) := by
  constructor
  · intro nowMs m m' h
    simp [is_older_than_14d, h]
  · intro nowMs ts low m hts hlow hid
    have h2n : (2 : Nat) ^ 22 = 4194304 := by norm_num
    rw [h2n] at hlow
    simp only [is_older_than_14d, two_weeks_old_snowflake,
      decide_eq_false_iff_not, not_lt, hid]
    have h2i : (2 : Int) ^ 22 = 4194304 := by norm_num
    rw [h2i]
    omega

/-- Claim C5 witness: the amended boundary fact applied to the message
exactly 14 days old. -/
theorem C5_amended_witness :
    is_older_than_14d cexNow cexMsg14 = false :=
  (C5_amended.2 cexNow (cexNow - 14 * 24 * 60 * 60 * 1000) 0 cexMsg14
    (by norm_num [cexNow]) (by norm_num)
    (by norm_num [cexMsg14, cexNow])).mpr (by norm_num)

/-! Claim C10: inclusive temporal limits. -/

/-- Claim C10: both temporal filters treat their limits inclusively — a
message created exactly at the after limit satisfies predicate_after, and a
message created exactly at either endpoint of a normalized (after, before)
range satisfies predicate_range. -/
theorem C10_thm :
    (∀ (f : Int) (m : Message), m.createdAt = f →
      predicate_after (some f) m = true) ∧
    (∀ (f s : Int) (m : Message), f ≤ s →
      m.createdAt = f ∨ m.createdAt = s →
      predicate_range (some f) (some s) m = true) := by
  constructor
  · intro f m h
    simp [predicate_after, h]
  · intro f s m hfs h
    rcases h with h | h <;> simp [predicate_range, h] <;> omega

/-- Claim C10 witness: both inclusive-boundary facts at concrete messages. -/
theorem C10_thm_witness :
    predicate_after (some 500) cexYoung = true ∧
    predicate_range (some 500) (some 900) cexYoung = true ∧
    predicate_range (some 100) (some 500) cexYoung = true :=
  ⟨C10_thm.1 500 cexYoung (by decide),
    C10_thm.2 500 900 cexYoung (by decide) (Or.inl (by decide)),
    C10_thm.2 100 500 cexYoung (by decide) (Or.inr (by decide))⟩

/-! Claim C8: the composed predicate is the AND of the present filters. -/

/-- The composed predicate evaluates to the conjunction (List.all) of the
installed predicates. -/
theorem buildPredicate_eq_all (search : String → String → Bool)
    (botsOnly : Bool) (users : List Nat) (regex : String)
    (firstLimit secondLimit : Option Int) (m : Message) :
    buildPredicate search botsOnly users regex firstLimit secondLimit m =
      ((if botsOnly then [predicate_bots_only] else []) ++
       (if !users.isEmpty then [predicate_specific_users users] else []) ++
       (if regex ≠ "" then [predicate_regex search regex] else []) ++
       (if secondLimit.isSome then [predicate_range firstLimit secondLimit]
        else if firstLimit.isSome then [predicate_after firstLimit]
        else [])).all (fun pred => pred m) := by
  unfold buildPredicate
  generalize ((if botsOnly then [predicate_bots_only] else []) ++
       (if !users.isEmpty then [predicate_specific_users users] else []) ++
       (if regex ≠ "" then [predicate_regex search regex] else []) ++
       (if secondLimit.isSome then [predicate_range firstLimit secondLimit]
        else if firstLimit.isSome then [predicate_after firstLimit]
        else [])) = ps
  match ps with
  | [] => simp
  | [p] => simp
  | p :: q :: rest => rfl

/-- Claim C8: for every filter combination in which a second limit only
comes with a first limit, the composed predicate accepts a message exactly
when every present filter accepts it — the actor filters when their
arguments are truthy, the regex filter when a pattern is given, the range
filter when a second limit exists, the after filter when only a first limit
exists — and with zero filters it accepts every message. -/
theorem C8_thm :
    (∀ (search : String → String → Bool) (botsOnly : Bool)
      (users : List Nat) (regex : String)
      (firstLimit secondLimit : Option Int) (m : Message),
      (secondLimit.isSome → firstLimit.isSome) →
      (buildPredicate search botsOnly users regex firstLimit secondLimit m
          = true ↔
        ((botsOnly = true → predicate_bots_only m = true) ∧
         (users ≠ [] → predicate_specific_users users m = true) ∧
         (regex ≠ "" → predicate_regex search regex m = true) ∧
         (secondLimit.isSome →
           predicate_range firstLimit secondLimit m = true) ∧
         (secondLimit = none → firstLimit.isSome →
           predicate_after firstLimit m = true)))) ∧
    (∀ (search : String → String → Bool) (m : Message),
      buildPredicate search false [] "" none none m = true) := by
  constructor
  · intro search botsOnly users regex firstLimit secondLimit m hfs
    rw [buildPredicate_eq_all]
    by_cases hb : botsOnly <;>
      rcases hu : users with _ | ⟨u0, urest⟩ <;>
      by_cases hr : regex = "" <;>
      rcases hs : secondLimit with _ | sv <;>
      rcases hf : firstLimit with _ | fv <;>
      simp_all [List.all_append]
  · intro search m
    rw [buildPredicate_eq_all]
    simp

/-- Claim C8 witness: the equivalence applied to a concrete filter set and
message, plus the zero-filter case at a concrete message. -/
theorem C8_thm_witness :
    (buildPredicate (fun _ _ => true) true [10] "y" (some 100) (some 900)
        cexYoung = true ↔
      ((true = true → predicate_bots_only cexYoung = true) ∧
       ([10] ≠ [] → predicate_specific_users [10] cexYoung = true) ∧
       ("y" ≠ "" → predicate_regex (fun _ _ => true) "y" cexYoung = true) ∧
       ((some (900 : Int)).isSome →
         predicate_range (some 100) (some 900) cexYoung = true) ∧
       (some (900 : Int) = none → (some (100 : Int)).isSome →
         predicate_after (some 100) cexYoung = true))) ∧
    buildPredicate (fun _ _ => true) false [] "" none none cexYoung = true :=
  ⟨C8_thm.1 (fun _ _ => true) true [10] "y" (some 100) (some 900) cexYoung
      (fun _ => by decide),
    C8_thm.2 (fun _ _ => true) cexYoung⟩

/-! Claim C6: the regex filter. -/

/-- Lowercasing distributes over string append. -/
theorem pyLower_append (a b : String) :
    pyLower (a ++ b) = pyLower a ++ pyLower b := by
  simp only [pyLower, String.data_append, List.map_append]
  rfl

/-- Lowercasing preserves emptiness. -/
theorem pyLower_empty_iff (s : String) : pyLower s = "" ↔ s = "" := by
  cases s with
  | mk d =>
    constructor
    · intro h
      have hd := congrArg String.data h
      simp only [pyLower] at hd
      have hd' : d.map Char.toLower = [] := hd
      rw [List.map_eq_nil_iff] at hd'
      rw [hd']
    · intro h
      rw [h]
      decide

/-- The newline separator is untouched by lowercasing. -/
theorem pyLower_newline : pyLower "\n" = "\n" := by decide

/-- Lowercasing commutes with the newline join. -/
theorem joinNL_lower : ∀ l : List String,
    pyLower (joinNL l) = joinNL (l.map pyLower)
  | [] => by decide
  | [s] => rfl
  | s :: s' :: rest => by
    show pyLower (s ++ "\n" ++ joinNL (s' :: rest)) = _
    rw [pyLower_append, pyLower_append, pyLower_newline,
      joinNL_lower (s' :: rest)]
    rfl

/-- A newline join of non-empty strings is empty only when the list is. -/
theorem joinNL_ne_empty : ∀ l : List String,
    (∀ x ∈ l, x ≠ "") → l ≠ [] → joinNL l ≠ ""
  | [], _, hne => absurd rfl hne
  | [s], h, _ => h s (List.mem_singleton.mpr rfl)
  | s :: s' :: rest, h, _ => by
    show s ++ "\n" ++ joinNL (s' :: rest) ≠ ""
    intro hc
    have hdata : (s.data ++ ("\n" : String).data) ++
        (joinNL (s' :: rest)).data = ([] : List Char) := by
      have := congrArg String.data hc
      simpa only [String.data_append] using this
    have h2 := (List.append_eq_nil.mp hdata).1
    have h3 := (List.append_eq_nil.mp h2).2
    exact absurd h3 (by decide)

/-- Pointwise lowered equality survives the non-empty filter. -/
theorem filter_lower : ∀ l1 l2 : List String,
    l1.map pyLower = l2.map pyLower →
    (l1.filter (fun s => s != "")).map pyLower =
      (l2.filter (fun s => s != "")).map pyLower
  | [], [], _ => rfl
  | [], y :: l2, h => by simp at h
  | x :: l1, [], h => by simp at h
  | x :: l1, y :: l2, h => by
    simp only [List.map_cons, List.cons.injEq] at h
    obtain ⟨hxy, hrest⟩ := h
    by_cases hx : x = ""
    · have hy : y = "" := by
        rw [← pyLower_empty_iff, ← hxy, pyLower_empty_iff]
        exact hx
      rw [List.filter_cons_of_neg (by simp [hx]),
        List.filter_cons_of_neg (by simp [hy])]
      exact filter_lower l1 l2 hrest
    · have hy : y ≠ "" := by
        intro hc
        apply hx
        rw [← pyLower_empty_iff, hxy, pyLower_empty_iff]
        exact hc
      rw [List.filter_cons_of_pos (by simp [hx]),
        List.filter_cons_of_pos (by simp [hy])]
      simp only [List.map_cons]
      rw [hxy, filter_lower l1 l2 hrest]

/-- Case-blind embed fields contribute lowered-equal text lists. -/
theorem embedFields_lower : ∀ (f1 f2 : List EmbedField),
    f1.length = f2.length →
    ((f1.zip f2).all fun p => embedFieldSameUpToCase p.1 p.2) = true →
    ((f1.map (fun f => [f.name, f.value])).flatten).map pyLower =
      ((f2.map (fun f => [f.name, f.value])).flatten).map pyLower
  | [], [], _, _ => rfl
  | [], _ :: _, h, _ => by simp at h
  | _ :: _, [], h, _ => by simp at h
  | a :: f1, b :: f2, hlen, hall => by
    simp only [List.zip_cons_cons, List.all_cons, Bool.and_eq_true] at hall
    obtain ⟨hab, hrest⟩ := hall
    simp only [embedFieldSameUpToCase, fieldsEqUpToCase, Bool.and_eq_true,
      beq_iff_eq] at hab
    simp only [List.map_cons, List.flatten_cons, List.map_append,
      List.map_cons, List.map_nil]
    rw [hab.1, hab.2,
      embedFields_lower f1 f2 (by simpa using hlen) hrest]

/-- Case-blind embeds contribute lowered-equal text lists. -/
theorem embedTexts_lower (e1 e2 : MEmbed)
    (h : embedSameUpToCase e1 e2 = true) :
    (embedTexts e1).map pyLower = (embedTexts e2).map pyLower := by
  simp only [embedSameUpToCase, fieldsEqUpToCase, Bool.and_eq_true,
    beq_iff_eq] at h
  obtain ⟨⟨⟨⟨⟨ht, hd⟩, hf⟩, ha⟩, hlen⟩, hfields⟩ := h
  simp only [embedTexts, List.map_cons]
  rw [ht, hd, hf, ha, embedFields_lower e1.fields e2.fields
    (by exact_mod_cast hlen) hfields]

/-- Case-blind embed lists contribute lowered-equal text lists. -/
theorem embedList_lower : ∀ (l1 l2 : List MEmbed),
    l1.length = l2.length →
    ((l1.zip l2).all fun p => embedSameUpToCase p.1 p.2) = true →
    ((l1.map embedTexts).flatten).map pyLower =
      ((l2.map embedTexts).flatten).map pyLower
  | [], [], _, _ => rfl
  | [], _ :: _, h, _ => by simp at h
  | _ :: _, [], h, _ => by simp at h
  | a :: l1, b :: l2, hlen, hall => by
    simp only [List.zip_cons_cons, List.all_cons, Bool.and_eq_true] at hall
    obtain ⟨hab, hrest⟩ := hall
    simp only [List.map_cons, List.flatten_cons, List.map_append]
    rw [embedTexts_lower a b hab,
      embedList_lower l1 l2 (by simpa using hlen) hrest]

/-- Messages equal up to letter case have lowered-equal text lists. -/
theorem messageTexts_lower (a b : Message)
    (h : sameUpToCase a b = true) :
    (messageTexts a).map pyLower = (messageTexts b).map pyLower := by
  simp only [sameUpToCase, fieldsEqUpToCase, Bool.and_eq_true,
    beq_iff_eq] at h
  obtain ⟨⟨hc, hlen⟩, hall⟩ := h
  simp only [messageTexts, List.map_cons]
  rw [hc, embedList_lower a.embeds b.embeds (by exact_mod_cast hlen) hall]

/-- Claim C6: the regex filter verdict is the case-insensitive search of the
pattern over the newline-joined message texts as the spec describes it
(predicate_regex agrees with regexVerdictSpec); the verdict is unchanged by
any change of letter case in the message texts; and a message whose content
and embed texts are all empty never matches. -/
theorem C6_thm :
    (∀ (search : String → String → Bool) (p : String) (m : Message),
      predicate_regex search p m = regexVerdictSpec search p m) ∧
    (∀ (search : String → String → Bool) (p : String) (a b : Message),
      sameUpToCase a b = true →
      predicate_regex search p a = predicate_regex search p b) ∧
    (∀ (search : String → String → Bool) (p : String) (m : Message),
      allEmptyText m = true → predicate_regex search p m = false) := by
  refine ⟨?_, ?_, ?_⟩
  · intro search p m
    simp only [predicate_regex, regexVerdictSpec, joinedText]
    rcases hT : (messageTexts m).filter (fun s => s != "") with _ | ⟨t, ts⟩
    · simp
      exact fun hc => absurd rfl hc
    · have hne : joinNL (t :: ts) ≠ "" := by
        apply joinNL_ne_empty
        · intro x hx
          have hx' : x ∈ (messageTexts m).filter (fun s => s != "") := by
            rw [hT]; exact hx
          have := (List.mem_filter.mp hx').2
          simpa using this
        · simp
      simp [hne]
  · intro search p a b h
    have htexts := filter_lower _ _ (messageTexts_lower a b h)
    have hjoin : pyLower (joinedText a) = pyLower (joinedText b) := by
      simp only [joinedText]
      rw [joinNL_lower, joinNL_lower, htexts]
    have hempty : joinedText a = "" ↔ joinedText b = "" := by
      rw [← pyLower_empty_iff, hjoin, pyLower_empty_iff]
    simp only [predicate_regex]
    by_cases ha : joinedText a = ""
    · have hb : joinedText b = "" := hempty.mp ha
      simp [ha, hb]
    · have hb : joinedText b ≠ "" := fun hc => ha (hempty.mpr hc)
      simp [ha, hb, hjoin]
  · intro search p m h
    simp only [allEmptyText, List.all_eq_true, beq_iff_eq] at h
    have hT : (messageTexts m).filter (fun s => s != "") = [] := by
      rw [List.filter_eq_nil_iff]
      intro x hx
      simp [h x hx]
    simp [predicate_regex, joinedText, hT]
    exact fun hc => absurd rfl hc

/-- Claim C6 witness: the three parts applied to concrete messages — a
message and its upper-cased variant get the same verdict, and the all-empty
message never matches. -/
theorem C6_thm_witness :
    predicate_regex (fun _ _ => true) "abc" (⟨1, 1, 1, false, "AbC", [], 0⟩)
        = predicate_regex (fun _ _ => true) "abc"
          (⟨1, 1, 1, false, "aBc", [], 0⟩) ∧
    predicate_regex (fun _ _ => true) "abc" (⟨1, 1, 1, false, "", [], 0⟩)
        = false ∧
    predicate_regex (fun _ _ => true) "abc" (⟨1, 1, 1, false, "AbC", [], 0⟩)
        = regexVerdictSpec (fun _ _ => true) "abc"
          (⟨1, 1, 1, false, "AbC", [], 0⟩) :=
  ⟨C6_thm.2.1 (fun _ _ => true) "abc" ⟨1, 1, 1, false, "AbC", [], 0⟩
      ⟨1, 1, 1, false, "aBc", [], 0⟩ (by decide),
    C6_thm.2.2 (fun _ _ => true) "abc" ⟨1, 1, 1, false, "", [], 0⟩
      (by decide),
    C6_thm.1 (fun _ _ => true) "abc" ⟨1, 1, 1, false, "AbC", [], 0⟩⟩

/-! Claim C9: cancellation semantics of the two gatherers. -/

/-- Cache-loop cancellation: if the flag is up, the first cancel fires right
before entry t, and at least t+1 entries remain, the loop returns exactly
what the pure gatherer collects from the first t entries. -/
theorem cacheAux_cancel (env : Env) (pred : Message → Bool) :
    ∀ (msgs : List Message) (mp : MessageMapping) (ids : List Nat)
      (s : CState) (t : Nat),
      s.cleaning = true →
      (∀ k, k < t → env.cancelAt (s.time + k) = false) →
      env.cancelAt (s.time + t) = true →
      t < msgs.length →
      getMessagesFromCacheAux env pred msgs mp ids s =
        ((gatherPureAux pred (msgs.take t) mp ids).1,
         (gatherPureAux pred (msgs.take t) mp ids).2,
         ⟨s.time + t + 1, false⟩)
  | [], mp, ids, s, t => by
    intro _ _ _ hlen
    simp at hlen
  | m :: rest, mp, ids, s, t => by
    intro hs hk hc hlen
    cases t with
    | zero =>
      have hc0 : env.cancelAt s.time = true := by simpa using hc
      simp [getMessagesFromCacheAux, readFlag, hs, hc0, gatherPureAux]
    | succ t0 =>
      have hc0 : env.cancelAt s.time = false := by
        simpa using hk 0 (Nat.succ_pos t0)
      have hk' : ∀ k, k < t0 → env.cancelAt (s.time + 1 + k) = false := by
        intro k hk0
        have harith : s.time + 1 + k = s.time + (k + 1) := by omega
        rw [harith]
        exact hk (k + 1) (by omega)
      have hc' : env.cancelAt (s.time + 1 + t0) = true := by
        have harith : s.time + 1 + t0 = s.time + (t0 + 1) := by omega
        rw [harith]
        exact hc
      have hlen' : t0 < rest.length := by
        simp at hlen
        omega
      have harith2 : s.time + 1 + t0 + 1 = s.time + (t0 + 1) + 1 := by omega
      by_cases hpm : pred m
      · have ih := cacheAux_cancel env pred rest
          (addToMapping m.channel m mp) (ids ++ [m.id])
          ⟨s.time + 1, true⟩ t0 rfl hk' hc' hlen'
        simp [getMessagesFromCacheAux, readFlag, hs, hc0, hpm,
          gatherPureAux, ih, harith2]
      · have ih := cacheAux_cancel env pred rest mp ids
          ⟨s.time + 1, true⟩ t0 rfl hk' hc' hlen'
        simp [getMessagesFromCacheAux, readFlag, hs, hc0, hpm,
          gatherPureAux, ih, harith2]

/-- The history scan keeps the flag up when it completes a channel without
observing a cancel. -/
theorem historyScan_ok_some (env : Env) (pred : Message → Bool) :
    ∀ (items : List (Except Unit Message)) (mp : MessageMapping)
      (ids : List Nat) (s : CState) (mp' : MessageMapping)
      (ids' : List Nat) (s' : CState),
      s.cleaning = true →
      historyScanChan env pred items mp ids s =
        (Except.ok (some (mp', ids')), s') →
      s'.cleaning = true
  | [], mp, ids, s, mp', ids', s', hs, heq => by
    simp only [historyScanChan, Prod.mk.injEq] at heq
    rw [← heq.2]
    exact hs
  | Except.error u :: rest, mp, ids, s, mp', ids', s', hs, heq => by
    simp [historyScanChan] at heq
  | Except.ok m :: rest, mp, ids, s, mp', ids', s', hs, heq => by
    simp only [historyScanChan, readFlag, hs] at heq
    by_cases hca : env.cancelAt s.time
    · simp [hca] at heq
    · simp only [hca, Bool.not_false, Bool.true_and] at heq
      by_cases hpm : pred m
      · simp only [hpm, if_true, if_false, Bool.not_true, ite_false] at heq
        exact historyScan_ok_some env pred rest _ _ ⟨s.time + 1, true⟩
          mp' ids' s' rfl heq
      · simp only [hpm, Bool.not_true, ite_false, if_false] at heq
        exact historyScan_ok_some env pred rest _ _ ⟨s.time + 1, true⟩
          mp' ids' s' rfl heq

/-- History-path cancellation: a gather over channels that starts with the
flag up and comes back with the flag down returns empty containers. -/
theorem channelsAux_cancel (env : Env) (traverse : Nat)
    (pred : Message → Bool) (before after : Option Int) :
    ∀ (channels : List Nat) (mp : MessageMapping) (ids : List Nat)
      (s : CState) (tr : List Event) (mp' : MessageMapping)
      (ids' : List Nat) (s' : CState) (tr' : List Event),
      s.cleaning = true →
      getMessagesFromChannelsAux env traverse pred before after channels
        mp ids s tr = (Except.ok (mp', ids'), s', tr') →
      s'.cleaning = false →
      mp' = [] ∧ ids' = []
  | [], mp, ids, s, tr, mp', ids', s', tr', hs, heq, hs' => by
    simp only [getMessagesFromChannelsAux, Prod.mk.injEq,
      Except.ok.injEq] at heq
    obtain ⟨⟨h1, h2⟩, h3, h4⟩ := heq
    rw [← h3] at hs'
    rw [hs] at hs'
    exact absurd hs' (by simp)
  | ch :: rest, mp, ids, s, tr, mp', ids', s', tr', hs, heq, hs' => by
    simp only [getMessagesFromChannelsAux] at heq
    rcases hscan : historyScanChan env pred
        ((env.history ch before after).take traverse) mp ids s with
      ⟨res, s2⟩
    rw [hscan] at heq
    match res with
    | Except.error e => simp at heq
    | Except.ok none =>
      simp only [Prod.mk.injEq, Except.ok.injEq] at heq
      obtain ⟨⟨h1, h2⟩, -, -⟩ := heq
      exact ⟨h1.symm, h2.symm⟩
    | Except.ok (some (mp2, ids2)) =>
      have hs2 : s2.cleaning = true :=
        historyScan_ok_some env pred _ mp ids s mp2 ids2 s2 hs hscan
      exact channelsAux_cancel env traverse pred before after rest
        mp2 ids2 s2 _ mp' ids' s' tr' hs2 heq hs'

/-- Claim C9: the two gatherers differ on cancellation as the spec says.  If
a cancel fires during cache gathering right before entry t, the cache
gatherer stops there and returns the mapping and ids collected from the
first t entries; if the history gatherer starts with the flag up and the
flag is down when it returns, it returns an empty mapping and an empty id
list, no matter what was already collected. -/
theorem C9_thm :
    (∀ (env : Env) (traverse : Nat) (pred : Message → Bool) (s : CState)
      (t : Nat),
      s.cleaning = true →
      (∀ k, k < t → env.cancelAt (s.time + k) = false) →
      env.cancelAt (s.time + t) = true →
      t < (env.cachedMessages.take traverse).length →
      getMessagesFromCache env traverse pred s =
        ((gatherPure pred ((env.cachedMessages.take traverse).take t)).1,
         (gatherPure pred ((env.cachedMessages.take traverse).take t)).2,
         ⟨s.time + t + 1, false⟩)) ∧
    (∀ (env : Env) (traverse : Nat) (channels : List Nat)
      (pred : Message → Bool) (before after : Option Int) (s : CState)
      (tr : List Event) (mp : MessageMapping) (ids : List Nat)
      (s' : CState) (tr' : List Event),
      s.cleaning = true →
      getMessagesFromChannels env traverse channels pred before after s tr =
        (Except.ok (mp, ids), s', tr') →
      s'.cleaning = false →
      mp = [] ∧ ids = []) := by
  constructor
  · intro env traverse pred s t hs hk hc hlen
    exact cacheAux_cancel env pred (env.cachedMessages.take traverse)
      [] [] s t hs hk hc hlen
  · intro env traverse channels pred before after s tr mp ids s' tr' hs
      heq hs'
    exact channelsAux_cancel env traverse pred before after channels
      [] [] s tr mp ids s' tr' hs heq hs'

/-- Claim C9 witness: a cancel before the third cache entry keeps the first
two entries' matches, and a cancel during the second channel's history scan
makes the history gatherer return empty containers. -/
theorem C9_thm_witness :
    (getMessagesFromCache w9Env 3 (fun _ => true) ⟨0, true⟩ =
      ((gatherPure (fun _ => true)
          ((w9Env.cachedMessages.take 3).take 2)).1,
       (gatherPure (fun _ => true)
          ((w9Env.cachedMessages.take 3).take 2)).2,
       ⟨0 + 2 + 1, false⟩)) ∧
    (([] : MessageMapping) = [] ∧ ([] : List Nat) = []) :=
  ⟨C9_thm.1 w9Env 3 (fun _ => true) ⟨0, true⟩ 2 rfl (by decide) (by decide)
      (by decide),
    C9_thm.2 w9EnvH 5 [1, 2] (fun _ => true) none none ⟨0, true⟩ [] [] []
      ⟨2, false⟩ [Event.historyCall 1, Event.historyCall 2] rfl rfl rfl⟩

/-! Claims C2 and C7: the deletion executor. -/

/-- Reading the flag when no cancel ever fires just echoes the stored flag
and ticks the clock. -/
theorem readFlag_noCancel (env : Env) (hnc : noCancel env) (s : CState) :
    readFlag env.cancelAt s = (s.cleaning, ⟨s.time + 1, s.cleaning⟩) := by
  simp [readFlag, hnc s.time]

/-- callMessages distributes over trace concatenation. -/
theorem callMessages_append : ∀ (a b : List Event),
    callMessages (a ++ b) = callMessages a ++ callMessages b
  | [], b => rfl
  | e :: a, b => by
    cases e <;> simp [callMessages, callMessages_append a b]

/-- The messages of the batching discipline's bulk events, in call order,
are exactly the messages it reports as bulk-deleted. -/
theorem bulkTraceFrom_call (ch : Nat) : ∀ (young toDel : List Message),
    callMessages (bulkTraceFrom ch toDel young).1 =
      (bulkTraceFrom ch toDel young).2.1
  | [], toDel => rfl
  | m :: rest, toDel => by
    simp only [bulkTraceFrom]
    by_cases h100 : (toDel ++ [m]).length = 100
    · rw [if_pos h100]
      simp only [callMessages]
      rw [bulkTraceFrom_call ch rest []]
    · rw [if_neg h100]
      exact bulkTraceFrom_call ch rest (toDel ++ [m])

/-- Every event of the batching discipline is a bulk-delete call on the
channel being processed. -/
theorem bulkTraceFrom_all_bulk (ch : Nat) : ∀ (young toDel : List Message),
    ((bulkTraceFrom ch toDel young).1).all (isBulkCall ch) = true
  | [], toDel => rfl
  | m :: rest, toDel => by
    simp only [bulkTraceFrom]
    by_cases h100 : (toDel ++ [m]).length = 100
    · rw [if_pos h100]
      simp only [List.all_cons, Bool.and_eq_true]
      exact ⟨by simp [isBulkCall], bulkTraceFrom_all_bulk ch rest []⟩
    · rw [if_neg h100]
      exact bulkTraceFrom_all_bulk ch rest (toDel ++ [m])

/-- The batching discipline bulk-deletes the longest fully-batched prefix and
leaves the remainder pending. -/
theorem bulkTraceFrom_parts (ch : Nat) : ∀ (young toDel : List Message),
    toDel.length < 100 →
    (bulkTraceFrom ch toDel young).2.1 =
      (toDel ++ young).take
        (100 * ((toDel.length + young.length) / 100)) ∧
    (bulkTraceFrom ch toDel young).2.2 =
      (toDel ++ young).drop
        (100 * ((toDel.length + young.length) / 100))
  | [], toDel, h => by
    have hdiv : toDel.length / 100 = 0 := Nat.div_eq_of_lt (by omega)
    simp [bulkTraceFrom, hdiv]
  | m :: rest, toDel, h => by
    by_cases h100 : (toDel ++ [m]).length = 100
    · obtain ⟨h1, h2⟩ := bulkTraceFrom_parts ch rest [] (by simp)
      simp only [bulkTraceFrom]
      rw [if_pos h100]
      have hsplit : toDel ++ m :: rest = (toDel ++ [m]) ++ rest := by simp
      have hlen : toDel.length + (m :: rest).length =
          (toDel ++ [m]).length + rest.length := by
        simp
        omega
      have hdiv : 100 * ((toDel.length + (m :: rest).length) / 100) =
          (toDel ++ [m]).length + 100 * (rest.length / 100) := by
        rw [hlen, h100]
        have : (100 + rest.length) / 100 = 1 + rest.length / 100 := by
          omega
        rw [this]
        ring
      constructor
      · rw [h1, hsplit, hdiv, List.take_append]
        simp
      · rw [h2, hsplit, hdiv, List.drop_append]
        simp
    · have hlt : (toDel ++ [m]).length < 100 := by
        simp at h100 ⊢
        omega
      obtain ⟨h1, h2⟩ := bulkTraceFrom_parts ch rest (toDel ++ [m]) hlt
      simp only [bulkTraceFrom]
      rw [if_neg h100]
      have hsplit : toDel ++ m :: rest = (toDel ++ [m]) ++ rest := by simp
      have hlen : toDel.length + (m :: rest).length =
          (toDel ++ [m]).length + rest.length := by
        simp
        omega
      rw [h1, h2, hsplit, hlen]
      exact ⟨rfl, rfl⟩

/-- The individual deleter under no cancellation and no hard failures: one
delete call per message in order, the NotFound ones skipped, the rest
appended to the accumulator. -/
theorem indiv_spec (env : Env) (hnc : noCancel env) :
    ∀ (l acc : List Message) (s : CState) (tr : List Event),
      s.cleaning = true →
      (∀ m ∈ l, env.deleteOutcome m ≠ DeleteOutcome.err) →
      deleteMessagesIndividually env l acc s tr =
        (Except.ok (acc ++ l.filter
            (fun m => env.deleteOutcome m == DeleteOutcome.ok)),
         ⟨s.time + l.length, true⟩, tr ++ l.map Event.deleteCall)
  | [], acc, s, tr => by
    intro hs _
    cases s with
    | mk time cleaning =>
      subst hs
      simp [deleteMessagesIndividually]
  | m :: rest, acc, s, tr => by
    intro hs herr
    cases s with
    | mk time cleaning =>
      subst hs
      have hm := herr m (by simp)
      have hrest : ∀ x ∈ rest, env.deleteOutcome x ≠ DeleteOutcome.err :=
        fun x hx => herr x (by simp [hx])
      simp only [deleteMessagesIndividually, readFlag, hnc time]
      rcases hout : env.deleteOutcome m with _ | _ | _
      · rw [show ((true && !false) : Bool) = true by rfl]
        simp only [Bool.not_true, if_false, ite_false, hout]
        rw [indiv_spec env hnc rest (acc ++ [m]) ⟨time + 1, true⟩
          (tr ++ [Event.deleteCall m]) rfl hrest]
        simp [List.filter_cons, hout, List.append_assoc]
        omega
      · rw [show ((true && !false) : Bool) = true by rfl]
        simp only [Bool.not_true, if_false, ite_false, hout]
        rw [indiv_spec env hnc rest acc ⟨time + 1, true⟩
          (tr ++ [Event.deleteCall m]) rfl hrest]
        simp [List.filter_cons, hout, List.append_assoc]
        omega
      · exact absurd hout hm

/-- The end of a channel's list flushes the pending batch, succeeds when
bulk deletes succeed, and completes the channel. -/
theorem chanAux_nil (env : Env) (nowMs : Int) (ch : Nat)
    (hbulk : ∀ c l, env.bulkOutcome c l = true)
    (toDel deleted : List Message) (s : CState) (tr : List Event) :
    deleteFoundChanAux env nowMs ch [] toDel deleted s tr =
      (Except.ok (ChanOutcome.completed (deleted ++ toDel)), s,
        tr ++ (if toDel.length > 0 then
          [Event.bulkDeleteCall ch toDel] else [])) := by
  simp only [deleteFoundChanAux, flushBatch]
  by_cases htd : toDel.length > 0
  · rw [if_pos htd, if_pos htd, hbulk ch toDel]
    simp
  · rw [if_neg htd, if_neg htd]
    have : toDel = [] := by
      cases toDel with
      | nil => rfl
      | cons a l => simp at htd
    simp [this]

/-- Walking a young prefix follows the batching discipline: the bulk events
of bulkTraceFrom are emitted, their messages accumulate into the deleted
list, the remainder stays pending, and the clock advances one read per
message. -/
theorem chanAux_young (env : Env) (nowMs : Int) (ch : Nat)
    (hnc : noCancel env) (hbulk : ∀ c l, env.bulkOutcome c l = true) :
    ∀ (young suffix toDel deleted : List Message) (s : CState)
      (tr : List Event),
      s.cleaning = true →
      (∀ m ∈ young, is_older_than_14d nowMs m = false) →
      deleteFoundChanAux env nowMs ch (young ++ suffix) toDel deleted s tr =
        deleteFoundChanAux env nowMs ch suffix
          (bulkTraceFrom ch toDel young).2.2
          (deleted ++ (bulkTraceFrom ch toDel young).2.1)
          ⟨s.time + young.length, true⟩
          (tr ++ (bulkTraceFrom ch toDel young).1)
  | [], suffix, toDel, deleted, s, tr => by
    intro hs _
    cases s with
    | mk time cleaning =>
      subst hs
      simp [bulkTraceFrom]
  | m :: young', suffix, toDel, deleted, s, tr => by
    intro hs hyoung
    cases s with
    | mk time cleaning =>
      subst hs
      have hym : is_older_than_14d nowMs m = false := hyoung m (by simp)
      have hyoung' : ∀ x ∈ young', is_older_than_14d nowMs x = false :=
        fun x hx => hyoung x (by simp [hx])
      show deleteFoundChanAux env nowMs ch (m :: (young' ++ suffix))
        toDel deleted ⟨time, true⟩ tr = _
      simp only [deleteFoundChanAux, readFlag, hnc time, hym,
        Bool.not_false, Bool.and_true, Bool.not_true, Bool.false_eq_true,
        if_false, ite_false]
      simp only [bulkTraceFrom]
      by_cases h100 : (toDel ++ [m]).length = 100
      · rw [if_pos h100, if_pos h100, hbulk ch (toDel ++ [m])]
        rw [chanAux_young env nowMs ch hnc hbulk young' suffix []
          (deleted ++ (toDel ++ [m])) ⟨time + 1, true⟩
          (tr ++ [Event.bulkDeleteCall ch (toDel ++ [m])]) rfl hyoung']
        simp only [if_true]
        have harith : time + 1 + young'.length =
            time + (m :: young').length := by
          simp
          omega
        rw [harith]
        simp [List.append_assoc]
      · rw [if_neg h100, if_neg h100]
        rw [chanAux_young env nowMs ch hnc hbulk young' suffix
          (toDel ++ [m]) deleted ⟨time + 1, true⟩ tr rfl hyoung']
        have harith : time + 1 + young'.length =
            time + (m :: young').length := by
          simp
          omega
        rw [harith]

/-- Hitting an aged-out message sends the whole remainder to the individual
deleter (one delete call each, NotFound skipped), re-reads the flag, flushes
the pending batch after those calls, and completes the channel. -/
theorem chanAux_old (env : Env) (nowMs : Int) (ch : Nat)
    (hnc : noCancel env) (hbulk : ∀ c l, env.bulkOutcome c l = true)
    (o : Message) (tail toDel deleted : List Message) (s : CState)
    (tr : List Event)
    (hs : s.cleaning = true)
    (hold : is_older_than_14d nowMs o = true)
    (herr : ∀ m ∈ o :: tail, env.deleteOutcome m ≠ DeleteOutcome.err) :
    deleteFoundChanAux env nowMs ch (o :: tail) toDel deleted s tr =
      (Except.ok (ChanOutcome.completed
          ((deleted ++ (o :: tail).filter
            (fun m => env.deleteOutcome m == DeleteOutcome.ok)) ++ toDel)),
        ⟨s.time + tail.length + 3, true⟩,
        (tr ++ (o :: tail).map Event.deleteCall) ++
          (if toDel.length > 0 then
            [Event.bulkDeleteCall ch toDel] else [])) := by
  cases s with
  | mk time cleaning =>
    subst hs
    simp only [deleteFoundChanAux, readFlag, hnc time, hold,
      Bool.not_false, Bool.and_true, Bool.not_true, Bool.false_eq_true,
      if_false, ite_false, if_true, ite_true]
    rw [indiv_spec env hnc (o :: tail) [] ⟨time + 1, true⟩ tr rfl herr]
    have hnc2 := hnc (time + 1 + (o :: tail).length)
    simp only [readFlag, hnc2, Bool.not_false, Bool.and_true, Bool.not_true,
      Bool.false_eq_true, if_false, ite_false, flushBatch,
      List.nil_append]
    by_cases htd : toDel.length > 0
    · rw [if_pos htd, if_pos htd, hbulk ch toDel]
      simp only [if_true, Prod.mk.injEq, CState.mk.injEq]
      refine ⟨trivial, ⟨?_, trivial⟩, trivial⟩
      simp
      omega
    · rw [if_neg htd, if_neg htd]
      have htdn : toDel = [] := by
        cases toDel with
        | nil => rfl
        | cons a l => simp at htd
      subst htdn
      simp only [List.append_nil, Prod.mk.injEq, CState.mk.injEq]
      refine ⟨trivial, ⟨?_, trivial⟩, trivial⟩
      simp
      omega

/-- The individual-deletion calls contribute exactly their messages, in
order. -/
theorem callMessages_map_delete : ∀ l : List Message,
    callMessages (l.map Event.deleteCall) = l
  | [] => rfl
  | m :: rest => by
    simp [callMessages, callMessages_map_delete rest]

/-- Claim C7: in a channel whose matched list is a young prefix followed by
an aged-out message o and a tail, the young prefix is deleted through bulk
calls (the full hundreds during the walk, the pending remainder flushed
after), every message from o to the end of the list gets one individual
delete call, a NotFound outcome excludes the message from the deleted list
without failing the run, and the executor then proceeds to the next channel
with the clock advanced and the flag still up. -/
theorem C7_thm (env : Env) (nowMs : Int) (ch : Nat) (young : List Message)
    (o : Message) (tail : List Message) (rest : MessageMapping)
    (deleted : List Message) (s : CState) (tr : List Event)
    (hnc : noCancel env)
    (hbulk : ∀ c l, env.bulkOutcome c l = true)
    (hs : s.cleaning = true)
    (hyoung : ∀ m ∈ young, is_older_than_14d nowMs m = false)
    (hold : is_older_than_14d nowMs o = true)
    (herr : ∀ m ∈ o :: tail, env.deleteOutcome m ≠ DeleteOutcome.err) :
    deleteFoundAux env nowMs ((ch, young ++ o :: tail) :: rest) deleted s tr
      =
      deleteFoundAux env nowMs rest
        (((deleted ++ young.take (100 * (young.length / 100))) ++
            (o :: tail).filter
              (fun m => env.deleteOutcome m == DeleteOutcome.ok)) ++
          young.drop (100 * (young.length / 100)))
        ⟨s.time + young.length + tail.length + 3, true⟩
        (((tr ++ bulkEvents ch young) ++
            (o :: tail).map Event.deleteCall) ++
          (if young.length % 100 = 0 then []
           else [Event.bulkDeleteCall ch
             (young.drop (100 * (young.length / 100)))])) ∧
    callMessages (bulkEvents ch young) =
      young.take (100 * (young.length / 100)) ∧
    (bulkEvents ch young).all (isBulkCall ch) = true := by
  have hparts := bulkTraceFrom_parts ch young [] (by simp)
  have h21 : (bulkTraceFrom ch [] young).2.1 =
      young.take (100 * (young.length / 100)) := by
    simpa using hparts.1
  have h22 : (bulkTraceFrom ch [] young).2.2 =
      young.drop (100 * (young.length / 100)) := by
    simpa using hparts.2
  refine ⟨?_, ?_, ?_⟩
  · have hif : (if (young.drop (100 * (young.length / 100))).length > 0
        then [Event.bulkDeleteCall ch
          (young.drop (100 * (young.length / 100)))] else []) =
        (if young.length % 100 = 0 then []
         else [Event.bulkDeleteCall ch
           (young.drop (100 * (young.length / 100)))]) := by
      by_cases hmod : young.length % 100 = 0
      · rw [if_pos hmod, if_neg]
        simp only [List.length_drop]
        omega
      · rw [if_neg hmod, if_pos]
        simp only [List.length_drop]
        omega
    simp only [deleteFoundAux]
    rw [chanAux_young env nowMs ch hnc hbulk young (o :: tail) [] deleted
      s tr hs hyoung]
    rw [chanAux_old env nowMs ch hnc hbulk o tail _ _ _ _ rfl hold herr]
    rw [h21, h22, hif]
    rfl
  · rw [bulkEvents, bulkTraceFrom_call ch young [], h21]
  · exact bulkTraceFrom_all_bulk ch young []

/-- Claim C7 witness: a young message then an aged-out one — the old one is
individually deleted, the young one bulk-flushed, and the executor returns
both as deleted. -/
theorem C7_thm_witness :
    deleteFoundAux cexEnvOk cexNow [(1, [cexYoung] ++ [cexOld])] []
        ⟨0, true⟩ []
      = (Except.ok [cexOld, cexYoung], ⟨4, true⟩,
        [Event.deleteCall cexOld, Event.bulkDeleteCall 1 [cexYoung]]) := by
  have h := (C7_thm cexEnvOk cexNow 1 [cexYoung] cexOld [] [] [] ⟨0, true⟩
    [] (fun _ => rfl) (fun _ _ => rfl) rfl (by decide) (by decide)
    (by decide)).1
  rw [h]
  rfl

/-- Claim C2 counterexample: for the gathered per-channel list [young, old],
the concatenated call order is [old, young] — the pending batch holding the
young message is flushed after the individual deletion of the old one — so
it is not the gathered order. -/
theorem C2_counterexample :
    callMessages
        (deleteFound cexEnvOk cexNow [(1, [cexYoung, cexOld])]
          ⟨0, true⟩ []).2.2 ≠ [cexYoung, cexOld] := by
  decide

/-- Claim C2 (amended): within one channel, with no cancellation and no
failing platform calls, deletion calls follow the gathered order exactly
when no message is outside the bulk window; when position i (= the length of
the young prefix) holds the first aged-out message, the concatenated call
order is the fully-batched prefix (the first 100·⌊i/100⌋ messages), then the
individual deletions from position i to the end, then the pending batch (the
remaining i mod 100 young messages) — gathered order again whenever i is a
multiple of 100. -/
theorem C2_amended :
    (∀ (env : Env) (nowMs : Int) (ch : Nat) (msgs : List Message)
      (s : CState),
      noCancel env → (∀ c l, env.bulkOutcome c l = true) →
      s.cleaning = true →
      (∀ m ∈ msgs, is_older_than_14d nowMs m = false) →
      callMessages (deleteFound env nowMs [(ch, msgs)] s []).2.2 = msgs) ∧
    (∀ (env : Env) (nowMs : Int) (ch : Nat)
      (young : List Message) (o : Message) (tail : List Message)
      (s : CState),
      noCancel env → (∀ c l, env.bulkOutcome c l = true) →
      s.cleaning = true →
      (∀ m ∈ young, is_older_than_14d nowMs m = false) →
      is_older_than_14d nowMs o = true →
      (∀ m ∈ o :: tail, env.deleteOutcome m ≠ DeleteOutcome.err) →
      callMessages
          (deleteFound env nowMs [(ch, young ++ o :: tail)] s []).2.2 =
        (young.take (100 * (young.length / 100)) ++ (o :: tail)) ++
          young.drop (100 * (young.length / 100))) := by
  constructor
  · intro env nowMs ch msgs s hnc hbulk hs hall
    have hcy := chanAux_young env nowMs ch hnc hbulk msgs [] [] [] s []
      hs hall
    rw [List.append_nil] at hcy
    have hrun : deleteFound env nowMs [(ch, msgs)] s [] =
        (Except.ok (([] ++ (bulkTraceFrom ch [] msgs).2.1) ++
            (bulkTraceFrom ch [] msgs).2.2),
          ⟨s.time + msgs.length, true⟩,
          ([] ++ (bulkTraceFrom ch [] msgs).1) ++
            (if ((bulkTraceFrom ch [] msgs).2.2).length > 0 then
              [Event.bulkDeleteCall ch (bulkTraceFrom ch [] msgs).2.2]
             else [])) := by
      show deleteFoundAux env nowMs [(ch, msgs)] [] s [] = _
      simp only [deleteFoundAux]
      rw [hcy, chanAux_nil env nowMs ch hbulk]
    rw [hrun]
    have hparts := bulkTraceFrom_parts ch msgs [] (by simp)
    have h21 : (bulkTraceFrom ch [] msgs).2.1 =
        msgs.take (100 * (msgs.length / 100)) := by
      simpa using hparts.1
    have h22 : (bulkTraceFrom ch [] msgs).2.2 =
        msgs.drop (100 * (msgs.length / 100)) := by
      simpa using hparts.2
    simp only [List.nil_append, callMessages_append,
      bulkTraceFrom_call ch msgs [], h21, h22]
    by_cases hmod : (msgs.drop (100 * (msgs.length / 100))).length > 0
    · rw [if_pos hmod]
      simp only [callMessages, List.append_nil]
      exact List.take_append_drop _ msgs
    · rw [if_neg hmod]
      simp only [callMessages, List.append_nil]
      have hlen : msgs.length ≤ 100 * (msgs.length / 100) := by
        simp only [List.length_drop] at hmod
        omega
      rw [List.take_of_length_le hlen]
  · intro env nowMs ch young o tail s hnc hbulk hs hyoung hold herr
    have hcy := chanAux_young env nowMs ch hnc hbulk young (o :: tail)
      [] [] s [] hs hyoung
    have hrun : deleteFound env nowMs [(ch, young ++ o :: tail)] s [] =
        (Except.ok ((([] ++ (bulkTraceFrom ch [] young).2.1) ++
            (o :: tail).filter
              (fun m => env.deleteOutcome m == DeleteOutcome.ok)) ++
            (bulkTraceFrom ch [] young).2.2),
          ⟨s.time + young.length + tail.length + 3, true⟩,
          (([] ++ (bulkTraceFrom ch [] young).1) ++
              (o :: tail).map Event.deleteCall) ++
            (if ((bulkTraceFrom ch [] young).2.2).length > 0 then
              [Event.bulkDeleteCall ch (bulkTraceFrom ch [] young).2.2]
             else [])) := by
      show deleteFoundAux env nowMs [(ch, young ++ o :: tail)] [] s [] = _
      simp only [deleteFoundAux]
      rw [hcy, chanAux_old env nowMs ch hnc hbulk o tail _ _ _ _ rfl hold
        herr]
    rw [hrun]
    have hparts := bulkTraceFrom_parts ch young [] (by simp)
    have h21 : (bulkTraceFrom ch [] young).2.1 =
        young.take (100 * (young.length / 100)) := by
      simpa using hparts.1
    have h22 : (bulkTraceFrom ch [] young).2.2 =
        young.drop (100 * (young.length / 100)) := by
      simpa using hparts.2
    simp only [List.nil_append, callMessages_append,
      bulkTraceFrom_call ch young [], callMessages_map_delete, h21, h22]
    by_cases hmod : (young.drop (100 * (young.length / 100))).length > 0
    · rw [if_pos hmod]
      simp only [callMessages, List.append_nil]
    · rw [if_neg hmod]
      simp only [callMessages, List.append_nil]
      have hdropnil : young.drop (100 * (young.length / 100)) = [] := by
        simp only [List.length_drop] at hmod
        rw [List.drop_eq_nil_iff]
        omega
      rw [hdropnil]
      simp

/-- Claim C2 witness: the amended order characterization applied to the
counterexample channel — calls go old first, then the flushed young batch —
and, on an all-young list, to the gathered order itself. -/
theorem C2_amended_witness :
    callMessages
        (deleteFound cexEnvOk cexNow [(1, [cexYoung, cexYoung])]
          ⟨0, true⟩ []).2.2 = [cexYoung, cexYoung] ∧
    callMessages
        (deleteFound cexEnvOk cexNow [(1, [cexYoung, cexOld])]
          ⟨0, true⟩ []).2.2 =
      (([cexYoung].take (100 * ([cexYoung].length / 100)) ++ [cexOld]) ++
        [cexYoung].drop (100 * ([cexYoung].length / 100))) :=
  ⟨C2_amended.1 cexEnvOk cexNow 1 [cexYoung, cexYoung] ⟨0, true⟩
      (fun _ => rfl) (fun _ _ => rfl) rfl (by decide),
    C2_amended.2 cexEnvOk cexNow 1 [cexYoung] cexOld [] ⟨0, true⟩
      (fun _ => rfl) (fun _ _ => rfl) rfl (by decide) (by decide)
      (by decide)⟩

/-! Claims C1, C3, C4: the orchestrator. -/

/-- Under no cancellation the cache loop never changes the stored flag. -/
theorem cacheAux_cleaning (env : Env) (pred : Message → Bool)
    (hnc : noCancel env) :
    ∀ (msgs : List Message) (mp : MessageMapping) (ids : List Nat)
      (s : CState),
      ((getMessagesFromCacheAux env pred msgs mp ids s).2.2).cleaning =
        s.cleaning
  | [], mp, ids, s => rfl
  | m :: rest, mp, ids, s => by
    simp only [getMessagesFromCacheAux, readFlag, hnc s.time,
      Bool.not_false, Bool.and_true]
    by_cases hcl : s.cleaning
    · rw [hcl]
      simp only [Bool.not_true, Bool.false_eq_true, if_false, ite_false]
      by_cases hpm : pred m
      · rw [if_pos hpm]
        rw [cacheAux_cleaning env pred hnc rest _ _ ⟨s.time + 1, true⟩]
      · rw [if_neg hpm]
        rw [cacheAux_cleaning env pred hnc rest _ _ ⟨s.time + 1, true⟩]
    · have hcl' : s.cleaning = false := by
        cases hc : s.cleaning
        · rfl
        · exact absurd hc hcl
      rw [hcl']
      simp

/-- Under no cancellation the history scan never changes the stored flag. -/
theorem historyScan_cleaning (env : Env) (pred : Message → Bool)
    (hnc : noCancel env) :
    ∀ (items : List (Except Unit Message)) (mp : MessageMapping)
      (ids : List Nat) (s : CState),
      ((historyScanChan env pred items mp ids s).2).cleaning = s.cleaning
  | [], mp, ids, s => rfl
  | Except.error u :: rest, mp, ids, s => rfl
  | Except.ok m :: rest, mp, ids, s => by
    simp only [historyScanChan, readFlag, hnc s.time,
      Bool.not_false, Bool.and_true]
    by_cases hcl : s.cleaning
    · rw [hcl]
      simp only [Bool.not_true, Bool.false_eq_true, if_false, ite_false]
      by_cases hpm : pred m
      · rw [if_pos hpm]
        rw [historyScan_cleaning env pred hnc rest _ _ ⟨s.time + 1, true⟩]
      · rw [if_neg hpm]
        rw [historyScan_cleaning env pred hnc rest _ _ ⟨s.time + 1, true⟩]
    · have hcl' : s.cleaning = false := by
        cases hc : s.cleaning
        · rfl
        · exact absurd hc hcl
      rw [hcl']
      simp

/-- Under no cancellation the channel loop never changes the stored flag. -/
theorem channelsAux_cleaning (env : Env) (traverse : Nat)
    (pred : Message → Bool) (before after : Option Int)
    (hnc : noCancel env) :
    ∀ (channels : List Nat) (mp : MessageMapping) (ids : List Nat)
      (s : CState) (tr : List Event),
      ((getMessagesFromChannelsAux env traverse pred before after channels
        mp ids s tr).2.1).cleaning = s.cleaning
  | [], mp, ids, s, tr => rfl
  | ch :: rest, mp, ids, s, tr => by
    simp only [getMessagesFromChannelsAux]
    rcases hscan : historyScanChan env pred
        ((env.history ch before after).take traverse) mp ids s with
      ⟨res, s2⟩
    have hs2 : s2.cleaning = s.cleaning := by
      have := historyScan_cleaning env pred hnc
        ((env.history ch before after).take traverse) mp ids s
      rw [hscan] at this
      exact this
    match res with
    | Except.error e => simpa using hs2
    | Except.ok none => simpa using hs2
    | Except.ok (some (mp2, ids2)) =>
      simp only
      rw [channelsAux_cleaning env traverse pred before after hnc rest
        mp2 ids2 s2 _]
      exact hs2

/-- Under no cancellation the individual deleter never changes the stored
flag. -/
theorem indiv_cleaning (env : Env) (hnc : noCancel env) :
    ∀ (l acc : List Message) (s : CState) (tr : List Event),
      ((deleteMessagesIndividually env l acc s tr).2.1).cleaning =
        s.cleaning
  | [], acc, s, tr => rfl
  | m :: rest, acc, s, tr => by
    simp only [deleteMessagesIndividually, readFlag, hnc s.time,
      Bool.not_false, Bool.and_true]
    by_cases hcl : s.cleaning
    · rw [hcl]
      simp only [Bool.not_true, Bool.false_eq_true, if_false, ite_false]
      rcases hout : env.deleteOutcome m with _ | _ | _
      · rw [indiv_cleaning env hnc rest (acc ++ [m]) ⟨s.time + 1, true⟩]
      · rw [indiv_cleaning env hnc rest acc ⟨s.time + 1, true⟩]
      · rfl
    · have hcl' : s.cleaning = false := by
        cases hc : s.cleaning
        · rfl
        · exact absurd hc hcl
      rw [hcl']
      simp

/-- The batch flush returns its input state unchanged. -/
theorem flushBatch_state (env : Env) (ch : Nat)
    (toDel deleted : List Message) (s : CState) (tr : List Event) :
    (flushBatch env ch toDel deleted s tr).2.1 = s := by
  simp only [flushBatch]
  by_cases htd : toDel.length > 0
  · rw [if_pos htd]
    by_cases hb : env.bulkOutcome ch toDel
    · rw [if_pos hb]
    · rw [if_neg hb]
  · rw [if_neg htd]

/-- Under no cancellation the per-channel deletion loop never changes the
stored flag. -/
theorem chanAux_cleaning (env : Env) (nowMs : Int) (ch : Nat)
    (hnc : noCancel env) :
    ∀ (msgs toDel deleted : List Message) (s : CState) (tr : List Event),
      ((deleteFoundChanAux env nowMs ch msgs toDel deleted s tr).2.1).cleaning
        = s.cleaning
  | [], toDel, deleted, s, tr => by
    rw [show deleteFoundChanAux env nowMs ch [] toDel deleted s tr =
      flushBatch env ch toDel deleted s tr from rfl]
    rw [flushBatch_state]
  | m :: rest, toDel, deleted, s, tr => by
    simp only [deleteFoundChanAux, readFlag, hnc s.time,
      Bool.not_false, Bool.and_true]
    by_cases hcl : s.cleaning
    · rw [hcl]
      simp only [Bool.not_true, Bool.false_eq_true, if_false, ite_false]
      by_cases hom : is_older_than_14d nowMs m
      · rw [if_pos hom]
        rcases hind : deleteMessagesIndividually env (m :: rest) []
            ⟨s.time + 1, true⟩ tr with ⟨res, s2, tr2⟩
        have hs2 : s2.cleaning = true := by
          have := indiv_cleaning env hnc (m :: rest) [] ⟨s.time + 1, true⟩
            tr
          rw [hind] at this
          exact this
        match res with
        | Except.error e => simpa using hs2
        | Except.ok deletedRemaining =>
          simp only [readFlag, hnc s2.time, Bool.not_false, Bool.and_true,
            hs2, Bool.not_true, Bool.false_eq_true, if_false, ite_false]
          rw [flushBatch_state]
      · rw [if_neg hom]
        by_cases h100 : (toDel ++ [m]).length = 100
        · rw [if_pos h100]
          by_cases hb : env.bulkOutcome ch (toDel ++ [m])
          · rw [if_pos hb]
            rw [chanAux_cleaning env nowMs ch hnc rest [] _
              ⟨s.time + 1, true⟩]
          · rw [if_neg hb]
        · rw [if_neg h100]
          rw [chanAux_cleaning env nowMs ch hnc rest (toDel ++ [m]) _
            ⟨s.time + 1, true⟩]
    · have hcl' : s.cleaning = false := by
        cases hc : s.cleaning
        · rfl
        · exact absurd hc hcl
      rw [hcl']
      simp

/-- Under no cancellation the deletion executor never changes the stored
flag. -/
theorem foundAux_cleaning (env : Env) (nowMs : Int) (hnc : noCancel env) :
    ∀ (mappings : MessageMapping) (deleted : List Message) (s : CState)
      (tr : List Event),
      ((deleteFoundAux env nowMs mappings deleted s tr).2.1).cleaning =
        s.cleaning
  | [], deleted, s, tr => rfl
  | (ch, msgs) :: rest, deleted, s, tr => by
    simp only [deleteFoundAux]
    rcases hchan : deleteFoundChanAux env nowMs ch msgs [] deleted s tr
      with ⟨res, s2, tr2⟩
    have hs2 : s2.cleaning = s.cleaning := by
      have := chanAux_cleaning env nowMs ch hnc msgs [] deleted s tr
      rw [hchan] at this
      exact this
    match res with
    | Except.error e => simpa using hs2
    | Except.ok (ChanOutcome.cancelled d) => simpa using hs2
    | Except.ok (ChanOutcome.completed d) =>
      simp only
      rw [foundAux_cleaning env nowMs hnc rest d s2 tr2]
      exact hs2

/-- A run body that returns without an error leaves the flag down: the
completion path resets it and the early-return path only triggers on a flag
already read as down. -/
theorem cleanRun_ok (env : Env) (search : String → String → Bool)
    (nowMs : Int) (ctx : Ctx) (req : CleanRequest) (s : CState)
    (res : CleanResult) (s' : CState) (tr' : List Event)
    (h : cleanRun env search nowMs ctx req s = (Except.ok res, s', tr')) :
    s'.cleaning = false := by
  simp only [cleanRun, readFlag] at h
  split at h
  · simp at h
  · split at h
    · simp at h
    · split at h
      · simp only [Prod.mk.injEq] at h
        rename_i hcond
        rw [← h.2.1]
        simp only [Bool.not_eq_true'] at hcond
        exact hcond
      · split at h
        · simp at h
        · simp only [Prod.mk.injEq] at h
          rw [← h.2.1]

/-- A run body that exits with a propagated error never touches the flag:
with no cancellation the flag comes back exactly as it went in. -/
theorem cleanRun_err (env : Env) (search : String → String → Bool)
    (nowMs : Int) (ctx : Ctx) (req : CleanRequest) (s : CState)
    (e : CleanError) (s' : CState) (tr' : List Event)
    (hnc : noCancel env)
    (h : cleanRun env search nowMs ctx req s = (Except.error e, s', tr')) :
    s'.cleaning = s.cleaning := by
  simp only [cleanRun, readFlag] at h
  split at h
  · simp only [Prod.mk.injEq] at h
    rw [← h.2.1]
  · split at h
    · rename_i e1 s1 tr1 heq
      split at heq
      · simp at heq
      · simp only [getMessagesFromChannels] at heq
        have hpres := congrArg (fun p =>
          ((p.2.1 : CState)).cleaning) heq
        simp only at hpres
        rw [channelsAux_cleaning env req.traverse _ _ _ hnc] at hpres
        simp only [Prod.mk.injEq] at h
        rw [← h.2.1]
        exact hpres.symm
    · rename_i mp ids s1 tr1 heq
      have hs1 : s1.cleaning = s.cleaning := by
        split at heq
        · simp only [getMessagesFromCache, Prod.mk.injEq] at heq
          rw [← heq.2.1]
          exact cacheAux_cleaning env _ hnc _ [] [] s
        · simp only [getMessagesFromChannels] at heq
          have hpres := congrArg (fun p =>
            ((p.2.1 : CState)).cleaning) heq
          simp only at hpres
          rw [channelsAux_cleaning env req.traverse _ _ _ hnc] at hpres
          exact hpres.symm
      split at h
      · simp at h
      · split at h
        · rename_i deleted s3 tr3 heqd
          simp only [Prod.mk.injEq] at h
          rw [← h.2.1]
          have hd := congrArg (fun p => ((p.2.1 : CState)).cleaning) heqd
          simp only [deleteFound] at hd
          rw [foundAux_cleaning env nowMs hnc] at hd
          simp only [hnc s1.time, Bool.not_false, Bool.and_true] at hd
          rw [← hd, hs1]
        · simp at h

/-- Validation errors are never the concurrency or network error. -/
theorem validateInput_not_network (t : Nat) (c : Option CleanChannels)
    (b : Bool) (u : List Nat) (f s2 : Option CleanLimit) :
    validateInput t c b u f s2 ≠ some CleanError.networkError ∧
    validateInput t c b u f s2 ≠ some CleanError.maxConcurrencyReached := by
  unfold validateInput
  split
  · exact ⟨by decide, by decide⟩
  · split
    · exact ⟨by decide, by decide⟩
    · split
      · exact ⟨by decide, by decide⟩
      · split
        · exact ⟨by decide, by decide⟩
        · split
          · exact ⟨by decide, by decide⟩
          · exact ⟨by decide, by decide⟩

/-- Claim C1 counterexample: a run whose bulk delete fails propagates the
network error and leaves the flag up, and a subsequent start on the
resulting state is rejected with the concurrency error — the state does not
return to Idle. -/
theorem C1_counterexample :
    (cleanMessages c1Env (fun _ _ => true) cexNow cexCtx c1Req
        ⟨0, false⟩).1 = Except.error CleanError.networkError ∧
    ((cleanMessages c1Env (fun _ _ => true) cexNow cexCtx c1Req
        ⟨0, false⟩).2.1).cleaning = true ∧
    (cleanMessages c1Env (fun _ _ => true) cexNow cexCtx c1Req
        ((cleanMessages c1Env (fun _ _ => true) cexNow cexCtx c1Req
          ⟨0, false⟩).2.1)).1 =
      Except.error CleanError.maxConcurrencyReached :=
  ⟨rfl, rfl, rfl⟩

/-- Claim C1 (amended): a run that exits without raising — completed or
cancelled — leaves the flag down, so the next start is not rejected; but a
run aborted by a propagated network error does not reset the flag: with no
cancellation the flag stays up, so a subsequent start is rejected until an
explicit cancel. -/
theorem C1_amended :
    (∀ (env : Env) (search : String → String → Bool) (nowMs : Int)
      (ctx : Ctx) (req : CleanRequest) (s : CState) (res : CleanResult)
      (s' : CState) (tr : List Event),
      cleanMessages env search nowMs ctx req s = (Except.ok res, s', tr) →
      s'.cleaning = false) ∧
    (∀ (env : Env) (search : String → String → Bool) (nowMs : Int)
      (ctx : Ctx) (req : CleanRequest) (s : CState) (s' : CState)
      (tr : List Event),
      noCancel env →
      cleanMessages env search nowMs ctx req s =
        (Except.error CleanError.networkError, s', tr) →
      s'.cleaning = true) := by
  constructor
  · intro env search nowMs ctx req s res s' tr h
    simp only [cleanMessages, readFlag] at h
    split at h
    · simp at h
    · split at h
      · simp at h
      · exact cleanRun_ok env search nowMs ctx req _ res s' tr h
  · intro env search nowMs ctx req s s' tr hnc h
    simp only [cleanMessages, readFlag] at h
    split at h
    · rename_i e1 hval
      simp only [Prod.mk.injEq, Except.error.injEq] at h
      rw [h.1] at hval
      exact absurd hval (validateInput_not_network req.traverse
        req.channels req.botsOnly req.users req.firstLimit
        req.secondLimit).1
    · split at h
      · simp at h
      · have := cleanRun_err env search nowMs ctx req ⟨s.time + 1, true⟩
          CleanError.networkError s' tr hnc h
        simpa using this

/-- Claim C1 witness: the amended facts at concrete runs — a completing run
ends Idle, and the failing run of the counterexample environment ends with
the flag still up. -/
theorem C1_amended_witness :
    ((cleanMessages c3Env (fun _ _ => true) cexNow cexCtx c3Req
        ⟨0, false⟩).2.1).cleaning = false ∧
    ((cleanMessages c1Env (fun _ _ => true) cexNow cexCtx c1Req
        ⟨0, false⟩).2.1).cleaning = true :=
  ⟨C1_amended.1 c3Env (fun _ _ => true) cexNow cexCtx c3Req ⟨0, false⟩
      (CleanResult.completed [c3Msg]) _ _ rfl,
    C1_amended.2 c1Env (fun _ _ => true) cexNow cexCtx c1Req ⟨0, false⟩
      _ _ (fun _ => rfl) rfl⟩

/-- Claim C4 counterexample: a second start with an over-limit traverse,
issued while the flag is up, fails with the validation error rather than the
concurrency-conflict error (validation runs first); no side effects occur
and the flag stays up. -/
theorem C4_counterexample :
    (cleanMessages cexEnvOk (fun _ _ => true) cexNow cexCtx c4Req
        ⟨0, true⟩).1 = Except.error CleanError.traverseTooBig ∧
    CleanError.traverseTooBig ≠ CleanError.maxConcurrencyReached ∧
    (cleanMessages cexEnvOk (fun _ _ => true) cexNow cexCtx c4Req
        ⟨0, true⟩).2.1 = ⟨0, true⟩ ∧
    (cleanMessages cexEnvOk (fun _ _ => true) cexNow cexCtx c4Req
        ⟨0, true⟩).2.2 = [] :=
  ⟨rfl, by decide, rfl, rfl⟩

/-- Claim C4 (amended): a start issued while the flag is up (and not
simultaneously cancelled) fails immediately with the concurrency-conflict
error provided its arguments pass validation; a request with invalid
arguments fails with its validation error instead.  In both cases the event
trace is empty — no gathering, no deletion, no log-sink call — and the
in-progress run's flag remains set. -/
theorem C4_amended :
    (∀ (env : Env) (search : String → String → Bool) (nowMs : Int)
      (ctx : Ctx) (req : CleanRequest) (s : CState),
      s.cleaning = true → env.cancelAt s.time = false →
      validateInput req.traverse req.channels req.botsOnly req.users
        req.firstLimit req.secondLimit = none →
      cleanMessages env search nowMs ctx req s =
        (Except.error CleanError.maxConcurrencyReached,
          ⟨s.time + 1, true⟩, [])) ∧
    (∀ (env : Env) (search : String → String → Bool) (nowMs : Int)
      (ctx : Ctx) (req : CleanRequest) (s : CState) (e : CleanError),
      validateInput req.traverse req.channels req.botsOnly req.users
        req.firstLimit req.secondLimit = some e →
      cleanMessages env search nowMs ctx req s = (Except.error e, s, [])) :=
  by
  constructor
  · intro env search nowMs ctx req s hs hca hval
    simp only [cleanMessages, hval, readFlag, hs, hca, Bool.not_false,
      Bool.and_true, if_true, ite_true]
  · intro env search nowMs ctx req s e hval
    simp only [cleanMessages, hval]

/-- Claim C4 witness: the concurrency rejection for a valid request at a
concrete busy state, and the validation rejection for the over-limit
request. -/
theorem C4_amended_witness :
    cleanMessages cexEnvOk (fun _ _ => true) cexNow cexCtx c1Req
        ⟨0, true⟩ =
      (Except.error CleanError.maxConcurrencyReached, ⟨0 + 1, true⟩, []) ∧
    cleanMessages cexEnvOk (fun _ _ => true) cexNow cexCtx c4Req
        ⟨0, true⟩ =
      (Except.error CleanError.traverseTooBig, ⟨0, true⟩, []) :=
  ⟨C4_amended.1 cexEnvOk (fun _ _ => true) cexNow cexCtx c1Req ⟨0, true⟩
      rfl rfl rfl,
    C4_amended.2 cexEnvOk (fun _ _ => true) cexNow cexCtx c4Req ⟨0, true⟩
      CleanError.traverseTooBig rfl⟩

/-- Claim C3: the code slip.  A message given as the second limit together
with an explicit channel scope passes validation (the source tests
isinstance(first_limit, Message) twice instead of testing second_limit), and
the run then proceeds to gather and delete — side effects occur.  The same
scope with the message as the first limit is rejected as the claim expects,
so the second-limit case is the slip. -/
theorem C3_bug :
    validateInput 5 (some (CleanChannels.chanList [7])) false []
        (some (CleanLimit.timestamp 100)) (some (CleanLimit.message c3Msg))
      = none ∧
    validateInput 5 (some (CleanChannels.chanList [7])) false []
        (some (CleanLimit.message c3Msg)) (some (CleanLimit.timestamp 100))
      = some CleanError.messageLimitWithChannels ∧
    (cleanMessages c3Env (fun _ _ => true) cexNow cexCtx c3Req
        ⟨0, false⟩).2.2 ≠ [] ∧
    Event.historyCall 7 ∈
      (cleanMessages c3Env (fun _ _ => true) cexNow cexCtx c3Req
        ⟨0, false⟩).2.2 :=
  ⟨rfl, rfl, by decide, by decide⟩

end CleanSpec
